import Mathlib

/-!
veuvelog: a shallow embedding of the logger and its console handler.

The development follows `logger.go` (levels, records, the logger with its
handler stack) and `handler/console_handler.go`.

Conventions of the embedding.

* Go strings and byte slices are sequences of code units; they are modelled by
  Lean strings, one character per unit.  A `[]byte` that may be `nil` is an
  `Option String`, `none` being the nil slice.
* `Level` is `uint8`; no arithmetic is done on levels, so it is a natural
  number (the values of the type are those below 256).
* Side effects on collaborators (a handler's `Handle` and `Close`) are recorded
  as a list of calls, in the order in which the code makes them.
* The process-wide counter `sequenceNo` and the clock are passed explicitly.
* State that a method `String()` of an operand reads and changes is carried by the
  operand itself: rendering a record returns the operands as the calls leave them.
-/

namespace Veuvelog

/-! ## Text -/

/-- Text as the Go code sees it: a sequence of code units. -/
abbrev Text := String

/-- A byte slice that may be nil (`none`). -/
abbrev Bytes := Option String

/-- Conversion `string(b)` of a byte slice: the nil slice converts to the empty string. -/
def Bytes.toText (b : Bytes) : Text :=
  match b with
  | none => ""
  | some s => s

/-! ## The `fmt` package, as far as the logger uses it

The arguments of a log call are `[]interface{}`.  The embedding carries the
dynamic types string, int and bool, and operands with a method `String() string`,
which `fmt` calls each time it prints the operand with the verb `v` or `s`.  This
tells apart the behaviours the code relies on: string operands and non-string
operands are spaced differently by `Sprint`, a verb may or may not fit the
operand, and a render that is made twice calls the methods of the operands twice.
-/

/-- One operand of a log call: a Go value of dynamic type string, int or bool, or
a value of a named string type `typeName` that has a method `String() string`
whose result depends on state outside the value (a counter, say).  For such an
operand `value` is the underlying string and `outputs` are the results of the
calls of `String()` still to come, in order; once they are used up the method
returns `value`. -/
inductive Arg where
  | str (s : String)
  | int (n : Int)
  | bool (b : Bool)
  | stringer (typeName : String) (value : String) (outputs : List String)
deriving DecidableEq, Repr

/-- Name of the dynamic type, as `reflect.TypeOf(arg).String()` gives it. -/
def Arg.typeName : Arg → Text
  | .str _ => "string"
  | .int _ => "int"
  | .bool _ => "bool"
  | .stringer t _ _ => t

/-- Whether the dynamic type of the operand is a string kind. -/
def Arg.isString : Arg → Bool
  | .str _ => true
  | .stringer _ _ _ => true
  | _ => false

/-- Decimal digits of a natural number, most significant first; `fuel` bounds the
number of digits. -/
def natDigits : Nat → Nat → List Char
  | 0, _ => []
  | fuel + 1, n =>
    if n < 10 then [Char.ofNat (48 + n)]
    else natDigits fuel (n / 10) ++ [Char.ofNat (48 + n % 10)]

/-- Decimal text of an integer, as the verb `%d` prints it. -/
def intText (n : Int) : Text :=
  match n with
  | Int.ofNat m => String.mk (natDigits (m + 1) m)
  | Int.negSucc m => String.mk ('-' :: natDigits (m + 2) (m + 1))

/-- Default text of an operand, the format of the verb `%v`: for an operand with a
method `String()`, what the next call of the method returns. -/
def Arg.text : Arg → Text
  | .str s => s
  | .int n => intText n
  | .bool b => if b then "true" else "false"
  | .stringer _ v outs =>
    match outs with
    | [] => v
    | o :: _ => o

/-- Text of the value of an operand printed without its methods, as `fmt` prints
it inside the bad-verb form. -/
def Arg.raw : Arg → Text
  | .stringer _ v _ => v
  | a => a.text

/-- The operand after one call of its method `String()`; an operand without
methods is unchanged. -/
def Arg.next : Arg → Arg
  | .stringer t v (_ :: rest) => .stringer t v rest
  | a => a

/-- The function `printArg(arg, verb)` of `fmt` for the verbs `v`, `s`, `d` and `t`:
the operand is printed when the verb fits its type, and the bad-verb form
`%!verb(type=value)` is printed otherwise, with the value printed without its
methods.  This is what `fmt` does for these four verbs only: its other verbs
(`x`, `q`, ...) are not modelled, and the statements below that speak of a
template in general are restricted to the templates of `simpleTemplate`. -/
def printArg (arg : Arg) (verb : Char) : Text :=
  let fits : Bool :=
    match arg with
    | .str _ => verb == 'v' || verb == 's'
    | .int _ => verb == 'v' || verb == 'd'
    | .bool _ => verb == 'v' || verb == 't'
    | .stringer _ _ _ => verb == 'v' || verb == 's'
  if fits then arg.text
  else "%!" ++ String.singleton verb ++ "(" ++ arg.typeName ++ "=" ++ arg.raw ++ ")"

/-- Operands left over after the template is consumed, as `doPrintf` lists them
inside `%!(EXTRA ...)`: `type=value` items separated by `", "`. -/
def extraItems : List Arg → Text
  | [] => ""
  | [a] => a.typeName ++ "=" ++ a.text
  | a :: b :: rest => a.typeName ++ "=" ++ a.text ++ ", " ++ extraItems (b :: rest)

/-- The closing step of `doPrintf`: `if argNum < len(a)` the unused operands are
reported. -/
def extraArgs (unused : List Arg) : Text :=
  match unused with
  | [] => ""
  | _ :: _ => "%!(EXTRA " ++ extraItems unused ++ ")"

/-- Whether a template stays within the directives the embedding follows `fmt`
on: every `%` is followed by one of `v`, `s`, `d`, `t`, `%`, or ends the template.
A flag, width, precision or argument index after `%`, or another verb of Go, is
outside, and `doPrintf` below is not a model of `fmt` there. -/
def simpleTemplate : List Char → Bool
  | [] => true
  | c :: rest =>
    if c = '%' then
      match rest with
      | [] => true
      | verb :: rest2 =>
        (verb == 'v' || verb == 's' || verb == 'd' || verb == 't' || verb == '%')
          && simpleTemplate rest2
    else simpleTemplate rest

/-- The loop of `doPrintf` over the remaining template, the operands not yet
consumed and the output buffer.  Literal text is copied; `%%` prints a percent
sign; a `%` that ends the template prints `%!(NOVERB)`; a verb with no operand
left prints `%!verb(MISSING)`; otherwise the next operand is printed with the
verb.  The character after `%` is always taken as the verb, which is what `fmt`
does on the templates of `simpleTemplate` and only there: `fmt` first reads
flags, a width, a precision and an argument index. -/
def doPrintf : List Char → List Arg → Text → Text
  | [], a, buf => buf ++ extraArgs a
  | c :: rest, a, buf =>
    if c = '%' then
      match rest with
      | [] => (buf ++ "%!(NOVERB)") ++ extraArgs a
      | verb :: rest2 =>
        if verb = '%' then doPrintf rest2 a (buf.push '%')
        else
          match a with
          | [] => doPrintf rest2 [] (buf ++ "%!" ++ String.singleton verb ++ "(MISSING)")
          | x :: xs => doPrintf rest2 xs (buf ++ printArg x verb)
    else doPrintf rest a (buf.push c)

/-- The text `fmt.Sprintf(format, a...)` produces, which is also what
`fmt.Fprintf` and `fmt.Printf` write. -/
def Sprintf (format : Text) (a : List Arg) : Text :=
  doPrintf format.data a ""

/-- The operands after `doPrintf` has run over the template: an operand printed
with the verb `v` or `s`, or listed as unused at the end, has had its method
`String()` called once; an operand that meets another verb is printed without its
methods and is unchanged. -/
def argsAfterPrintf : List Char → List Arg → List Arg
  | [], a => a.map Arg.next
  | c :: rest, a =>
    if c = '%' then
      match rest with
      | [] => a.map Arg.next
      | verb :: rest2 =>
        if verb = '%' then argsAfterPrintf rest2 a
        else
          match a with
          | [] => []
          | x :: xs =>
            (if verb = 'v' ∨ verb = 's' then x.next else x) :: argsAfterPrintf rest2 xs
    else argsAfterPrintf rest a

/-- The loop of `doPrintln`: a space before every operand but the first, each
operand in its default format. -/
def doPrintln : Nat → List Arg → Text → Text
  | _, [], buf => buf
  | argNum, arg :: rest, buf =>
    let buf1 := if argNum > 0 then buf.push ' ' else buf
    doPrintln (argNum + 1) rest (buf1 ++ arg.text)

/-- The text `fmt.Sprintln(a...)` produces, which is also what `fmt.Fprintln`
writes: the operands separated by spaces, then a newline. -/
def Sprintln (a : List Arg) : Text :=
  (doPrintln 0 a "").push '\n'

/-- The loop of `doPrint`: a space is added between two operands when neither is
a string. -/
def doPrint : Nat → Bool → List Arg → Text → Text
  | _, _, [], buf => buf
  | argNum, prevString, arg :: rest, buf =>
    let isString := arg.isString
    let buf1 := if argNum > 0 && !isString && !prevString then buf.push ' ' else buf
    doPrint (argNum + 1) isString rest (buf1 ++ arg.text)

/-- The text `fmt.Sprint(a...)` produces. -/
def Sprint (a : List Arg) : Text :=
  doPrint 0 false a ""

/-! ## `bytes.Buffer`, as far as `Record.Message` uses it -/

/-- A `bytes.Buffer` that has only been written to: its contents, `none` while
the underlying slice is still nil. -/
structure Buffer where
  buf : Bytes
deriving DecidableEq, Repr

/-- The zero value `var buf bytes.Buffer`. -/
def Buffer.zero : Buffer := ⟨none⟩

/-- The method `Write`: appends `p`.  Writing no bytes to a buffer whose slice is
nil re-slices the nil slice and leaves it nil. -/
def Buffer.Write (b : Buffer) (p : Text) : Buffer :=
  match b.buf with
  | none => if p.data = [] then ⟨none⟩ else ⟨some p⟩
  | some s => ⟨some (s ++ p)⟩

/-- The method `Len`: number of code units held. -/
def Buffer.Len (b : Buffer) : Nat :=
  b.buf.toText.data.length

/-- The method `Truncate(n)` for `0 ≤ n ≤ Len()` (its only use, in `Record.Message`,
has `Len() ≥ 1`): keeps the first `n` code units.  With `n = 0` the buffer is
reset, which leaves an empty slice that is not nil once something has been
written. -/
def Buffer.Truncate (b : Buffer) (n : Nat) : Buffer :=
  match b.buf with
  | none => ⟨none⟩
  | some s => ⟨some (String.mk (s.data.take n))⟩

/-- The method `Bytes`: the contents as a slice. -/
def Buffer.Bytes (b : Buffer) : Bytes := b.buf

/-! ## Levels -/

/-- The type `Level` (`uint8`). -/
abbrev Level := Nat

def CRITICAL : Level := 0
def ERROR : Level := 1
def WARNING : Level := 2
def NOTICE : Level := 3
def INFO : Level := 4
def DEBUG : Level := 5

/-- The array `names` of `Level.String`. -/
def names : List Text := ["CRITICAL", "ERROR", "WARNING", "NOTICE", "INFO", "DEBUG"]

/-- The method `Level.String`.  The index expression `names[l]` is only reached
with `l` in the range of the array, which the definition checks. -/
def Level.String (l : Level) : Text :=
  if h : l < 0 ∨ l > 5 then "UNKNOWN"
  else
    have hl : l < names.length :=
      Nat.lt_succ_of_le (Nat.not_lt.mp (fun h5 => h (Or.inr h5)))
    names[l]

/-! ## Records -/

/-- The struct `Record`.  `Time` is an abstract clock reading, `message` the
cached render (`none` is the nil slice) and `fmt` the optional template
(`none` is the nil pointer). -/
structure Record where
  ID : Nat
  Time : Nat
  Module : Text
  Level : Veuvelog.Level
  LevelName : Text
  Args : List Arg
  message : Bytes
  fmt : Option Text
deriving DecidableEq, Repr

/-- The method `Record.Message`, which has a pointer receiver: the result is the
returned text together with the record after the call.  The method assigns to
`r.message` only; the operands of the record after the call are the operands as
the calls of `String()` made by `fmt` leave them (`Fprintln` prints every operand
once with the verb `v`). -/
def Record.Message (r : Record) : Text × Record :=
  match r.message with
  | none =>
    let buf : Buffer :=
      match r.fmt with
      | some format => Buffer.zero.Write (Sprintf format r.Args)
      | none =>
        -- use Fprintln to make sure we always get space between arguments
        let buf := Buffer.zero.Write (Sprintln r.Args)
        buf.Truncate (buf.Len - 1) -- strip newline
    let args : List Arg :=
      match r.fmt with
      | some format => argsAfterPrintf format.data r.Args
      | none => r.Args.map Arg.next
    let r1 : Record := { r with message := buf.Bytes, Args := args }
    (r1.message.toText, r1)
  | some m => (m, r)

/-! ## Handlers

The logger uses four methods of its handlers: `GetLevel`, `Handle`, `Close` and,
for a formattable handler, `GetFormatter().format`.  They are taken as data of the
handler value.
-/

/-- Modelled from the spec: the formatter type, whose declaration is not in the
sources.  Its method `format` turns a record into text (`format(record) -> text`);
`log` assigns the result to the `[]byte` field `message`, so the result is a byte
slice, which may be nil. -/
structure Formatter where
  format : Record → Bytes

/-- Modelled from the spec: the interfaces `Handler` and `FormattableHandler`, whose
declarations are not in the sources (`level() -> Severity`, `handle(record)`,
`close() -> error-or-none`, and the optional `formatter() -> Formatter`).  `name`
tells handler instances apart in the recorded calls; `GetLevel` is the result of
the method of that name; `GetFormatter` is present exactly when the dynamic type
also implements `FormattableHandler`; `Close` is the error the method `Close`
returns (`none` for a nil error).  The effect of `Handle` is recorded by the
logger as a `HandleCall`. -/
structure Handler where
  name : Text
  GetLevel : Level
  GetFormatter : Option Formatter
  Close : Option Text

/-- One invocation `h.Handle(*record)` made by the logger: the position of the
handler in the stack, its name, and the copy of the record it receives. -/
structure HandleCall where
  idx : Nat
  handler : Text
  record : Record
deriving DecidableEq, Repr

/-- One invocation `h.Close()` made by the logger, with the error it returned. -/
structure CloseCall where
  idx : Nat
  handler : Text
  result : Option Text
deriving DecidableEq, Repr

/-! ## The logger -/

/-- The struct `Logger`. -/
structure Logger where
  Name : Text
  level : Level
  handlers : List Handler
  closed : Bool

/-- The constructor `NewLogger`: every field but the name has its zero value. -/
def NewLogger (name : Text) : Logger :=
  { Name := name, level := 0, handlers := [], closed := false }

/-- The method `PushHandler`: `append([]Handler{h}, l.handlers...)`. -/
def Logger.PushHandler (l : Logger) (h : Handler) : Logger :=
  { l with handlers := [h] ++ l.handlers }

/-- The method `PopHandler`.  The first component is the outcome, an error standing
for the panic and its payload; the second is the logger after the call. -/
def Logger.PopHandler (l : Logger) : Except Text Handler × Logger :=
  if h0 : l.handlers.length = 0 then
    (Except.error "You tried to pop from an empty handler stack.", l)
  else
    have hi : l.handlers.length - 1 < l.handlers.length :=
      Nat.sub_lt (Nat.pos_of_ne_zero h0) Nat.one_pos
    (Except.ok l.handlers[l.handlers.length - 1],
      { l with handlers := l.handlers.take (l.handlers.length - 1) })

/-- The method `SetHandlers`. -/
def Logger.SetHandlers (l : Logger) (handlers : List Handler) : Logger :=
  { l with handlers := handlers }

/-- The method `GetHandlers`. -/
def Logger.GetHandlers (l : Logger) : List Handler :=
  l.handlers

/-- The loop of `Close` over the handlers from position `i` on: each handler is
closed and the error it returns is discarded. -/
def closeLoop : Nat → List Handler → List CloseCall
  | _, [] => []
  | i, h :: rest => ⟨i, h.name, h.Close⟩ :: closeLoop (i + 1) rest

/-- The method `Close`: the logger after the call and the calls of `Close` made on
handlers. -/
def Logger.Close (l : Logger) : Logger × List CloseCall :=
  if l.closed then (l, [])
  else ({ l with closed := true }, closeLoop 0 l.handlers)

/-- The loop of `log` over the handlers from position `i` on, with the current
state of the record: a handler whose level is at least `lvl` gets the record,
after its formatter, if it has one, has overwritten the cached message. -/
def dispatch (lvl : Level) : Nat → List Handler → Record → List HandleCall
  | _, [], _ => []
  | i, h :: rest, record =>
    if h.GetLevel ≥ lvl then
      let record1 : Record :=
        match h.GetFormatter with
        | some fm => { record with message := fm.format record }
        | none => record
      ⟨i, h.name, record1⟩ :: dispatch lvl (i + 1) rest record1
    else dispatch lvl (i + 1) rest record

/-- What one call of `log` does: the new value of the counter, the record as it
is built before the loop, and the invocations of `Handle`. -/
structure LogResult where
  sequenceNo : Nat
  record : Record
  calls : List HandleCall
deriving DecidableEq, Repr

/-- The method `log`.  `sequenceNo` is the value of the process-wide counter before
the call (`atomic.AddUint64` returns the incremented value, modulo `2^64`) and
`now` the reading of the clock. -/
def Logger.log (l : Logger) (sequenceNo now : Nat) (lvl : Level) (format : Option Text)
    (args : List Arg) : LogResult :=
  let id := (sequenceNo + 1) % 2 ^ 64
  let record : Record :=
    { ID := id, Time := now, Module := l.Name, Level := lvl, LevelName := Level.String lvl,
      Args := args, message := none, fmt := format }
  { sequenceNo := id, record := record, calls := dispatch lvl 0 l.handlers record }

def Logger.Critical (l : Logger) (sequenceNo now : Nat) (args : List Arg) : LogResult :=
  l.log sequenceNo now CRITICAL none args

def Logger.Criticalf (l : Logger) (sequenceNo now : Nat) (format : Text) (args : List Arg) :
    LogResult :=
  l.log sequenceNo now CRITICAL (some format) args

def Logger.Error (l : Logger) (sequenceNo now : Nat) (args : List Arg) : LogResult :=
  l.log sequenceNo now ERROR none args

def Logger.Errorf (l : Logger) (sequenceNo now : Nat) (format : Text) (args : List Arg) :
    LogResult :=
  l.log sequenceNo now ERROR (some format) args

def Logger.Warning (l : Logger) (sequenceNo now : Nat) (args : List Arg) : LogResult :=
  l.log sequenceNo now WARNING none args

def Logger.Warningf (l : Logger) (sequenceNo now : Nat) (format : Text) (args : List Arg) :
    LogResult :=
  l.log sequenceNo now WARNING (some format) args

def Logger.Notice (l : Logger) (sequenceNo now : Nat) (args : List Arg) : LogResult :=
  l.log sequenceNo now NOTICE none args

def Logger.Noticef (l : Logger) (sequenceNo now : Nat) (format : Text) (args : List Arg) :
    LogResult :=
  l.log sequenceNo now NOTICE (some format) args

def Logger.Info (l : Logger) (sequenceNo now : Nat) (args : List Arg) : LogResult :=
  l.log sequenceNo now INFO none args

def Logger.Infof (l : Logger) (sequenceNo now : Nat) (format : Text) (args : List Arg) :
    LogResult :=
  l.log sequenceNo now INFO (some format) args

def Logger.Debug (l : Logger) (sequenceNo now : Nat) (args : List Arg) : LogResult :=
  l.log sequenceNo now DEBUG none args

def Logger.Debugf (l : Logger) (sequenceNo now : Nat) (format : Text) (args : List Arg) :
    LogResult :=
  l.log sequenceNo now DEBUG (some format) args

/-- How a call that does not return ends: `os.Exit` with a status, or a panic with
its payload. -/
inductive Abort where
  | exit (status : Nat)
  | panic (payload : Text)
deriving DecidableEq, Repr

/-- The method `Fatal`: the log call, then `os.Exit(1)`. -/
def Logger.Fatal (l : Logger) (sequenceNo now : Nat) (args : List Arg) : LogResult × Abort :=
  (l.log sequenceNo now CRITICAL none args, Abort.exit 1)

/-- The method `Fatalf`. -/
def Logger.Fatalf (l : Logger) (sequenceNo now : Nat) (format : Text) (args : List Arg) :
    LogResult × Abort :=
  (l.log sequenceNo now CRITICAL (some format) args, Abort.exit 1)

/-- The method `Panic`: the log call, then `panic(fmt.Sprint(args...))`. -/
def Logger.Panic (l : Logger) (sequenceNo now : Nat) (args : List Arg) : LogResult × Abort :=
  (l.log sequenceNo now CRITICAL none args, Abort.panic (Sprint args))

/-- The method `Panicf`: the log call, then `panic(fmt.Sprintf(format, args...))`. -/
def Logger.Panicf (l : Logger) (sequenceNo now : Nat) (format : Text) (args : List Arg) :
    LogResult × Abort :=
  (l.log sequenceNo now CRITICAL (some format) args, Abort.panic (Sprintf format args))

/-! ## The console handler -/

/-- The escape sequence `yellow`: bytes 27, 91, 57, 48, 59, 52, 51, 109. -/
def yellow : Text := String.mk [Char.ofNat 27, '[', '9', '0', ';', '4', '3', 'm']

/-- The escape sequence `red`: bytes 27, 91, 57, 55, 59, 52, 49, 109. -/
def red : Text := String.mk [Char.ofNat 27, '[', '9', '7', ';', '4', '1', 'm']

/-- The escape sequence `blue`: bytes 27, 91, 57, 55, 59, 52, 52, 109. -/
def blue : Text := String.mk [Char.ofNat 27, '[', '9', '7', ';', '4', '4', 'm']

/-- The escape sequence `reset`: bytes 27, 91, 48, 109. -/
def reset : Text := String.mk [Char.ofNat 27, '[', '0', 'm']

/-- The struct `ConsoleHandler`. -/
structure ConsoleHandler where
  level : Level
  disableColor : Bool
deriving DecidableEq, Repr

/-- The constructor `NewConsoleHandler`; `goos` is the value of `runtime.GOOS`. -/
def NewConsoleHandler (goos : Text) (lvl : Level) : ConsoleHandler :=
  { level := lvl, disableColor := if goos = "windows" then true else false }

/-- The method `GetLevel` of the console handler. -/
def ConsoleHandler.GetLevel (h : ConsoleHandler) : Level := h.level

/-- The method `getLevelColor`. -/
def ConsoleHandler.getLevelColor (h : ConsoleHandler) (lvl : Level) : Text :=
  let r : Text :=
    if !h.disableColor then
      if lvl = DEBUG ∨ lvl = INFO ∨ lvl = NOTICE then
        "[" ++ Sprintf (blue ++ Level.String lvl ++ reset) [] ++ "]"
      else if lvl = WARNING then
        "[" ++ Sprintf (yellow ++ Level.String lvl ++ reset) [] ++ "]"
      else if lvl = ERROR ∨ lvl = CRITICAL then
        "[" ++ Sprintf (red ++ Level.String lvl ++ reset) [] ++ "]"
      else ""
    else ""
  if r = "" then Sprintf "[%s]" [Arg.str (Level.String lvl)] else r

/-- The method `Handle` of the console handler: the text written to the standard
output, `fmt.Printf(lvlText + record.Message() + "\n")`. -/
def ConsoleHandler.Handle (h : ConsoleHandler) (record : Record) : Text :=
  let lvlText := h.getLevelColor record.Level
  Sprintf (lvlText ++ record.Message.1 ++ "\n") []

/-- The method `Close` of the console handler: it returns a nil error. -/
def ConsoleHandler.Close (_h : ConsoleHandler) : Option Text := none

/-! ## Definitions used to state the properties -/

/-- Number of invocations of `Handle` on the handler at position `i` of the stack. -/
def handleCount (calls : List HandleCall) (i : Nat) : Nat :=
  (calls.filter (fun c => decide (c.idx = i))).length

/-- A handler without the formatter capability whose `Close` returns no error. -/
def plainHandler (name : Text) (lvl : Level) : Handler :=
  { name := name, GetLevel := lvl, GetFormatter := none, Close := none }

/-- A handler without the formatter capability whose `Close` returns an error. -/
def failingHandler (name : Text) (lvl : Level) (err : Text) : Handler :=
  { name := name, GetLevel := lvl, GetFormatter := none, Close := some err }

/-- The method `Close` called `n` times in a row: the logger after the last call
and all the calls of `Close` made on handlers, in order. -/
def closeTimes : Nat → Logger → Logger × List CloseCall
  | 0, l => (l, [])
  | n + 1, l =>
    let first := l.Close
    let later := closeTimes n first.1
    (later.1, first.2 ++ later.2)

/-- The texts joined with exactly one space between adjacent ones, and nothing
after the last one. -/
def joinWithSpaces : List Text → Text
  | [] => ""
  | [a] => a
  | a :: b :: rest => a ++ " " ++ joinWithSpaces (b :: rest)

/-- A formatter whose output is the same byte slice for every record. -/
def constFormatter (out : Bytes) : Formatter :=
  { format := fun _ => out }

/-- A handler with the formatter capability whose `Close` returns no error. -/
def formattingHandler (name : Text) (lvl : Level) (fm : Formatter) : Handler :=
  { name := name, GetLevel := lvl, GetFormatter := some fm, Close := none }

/-- The record after `r.Args = args` is assigned between two calls of `Message`. -/
def Record.setArgs (r : Record) (args : List Arg) : Record :=
  { r with Args := args }

/-- One call of `log` in a sequential execution: the logger it is made through,
the reading of the clock, and the arguments of the call. -/
structure LogCall where
  logger : Logger
  now : Nat
  lvl : Level
  format : Option Text
  args : List Arg

/-- A sequential execution of log calls, the counter being `sequenceNo` before the
first of them: the results of the calls, in order. -/
def runLogs : Nat → List LogCall → List LogResult
  | _, [] => []
  | sequenceNo, c :: rest =>
    let res := c.logger.log sequenceNo c.now c.lvl c.format c.args
    res :: runLogs res.sequenceNo rest

/-- The method `PushHandler` called with each of the handlers, in order. -/
def pushAll : Logger → List Handler → Logger
  | l, [] => l
  | l, h :: rest => pushAll (l.PushHandler h) rest

/-- The method `PopHandler` called `n` times in a row: the outcomes, in order, and
the logger after the last call. -/
def popTimes : Nat → Logger → List (Except Text Handler) × Logger
  | 0, l => ([], l)
  | n + 1, l =>
    let first := l.PopHandler
    let later := popTimes n first.2
    (first.1 :: later.1, later.2)

/-- The console handler as a value of the interface `Handler`: it has no formatter
capability. -/
def ConsoleHandler.toHandler (h : ConsoleHandler) : Handler :=
  { name := "console", GetLevel := h.GetLevel, GetFormatter := none, Close := h.Close }

/-- What is written to the standard output during a log call on a logger whose
stack holds the console handler `h` alone: one text for each call of `Handle`. -/
def consoleOutput (h : ConsoleHandler) (res : LogResult) : List Text :=
  res.calls.map (fun c => h.Handle c.record)

/-- The state a log call runs in: the logger, the process-wide counter, and the
invocations of `Handle` made so far. -/
structure World where
  logger : Logger
  sequenceNo : Nat
  handled : List HandleCall

/-- A call of `log` as a step on the state.  The method reads `l.Name` and
`l.handlers` and assigns to no field of the logger. -/
def World.log (w : World) (now : Nat) (lvl : Level) (format : Option Text)
    (args : List Arg) : World :=
  let res := w.logger.log w.sequenceNo now lvl format args
  { logger := w.logger, sequenceNo := res.sequenceNo, handled := w.handled ++ res.calls }

/-- What a call of `Handle` shows of the call apart from the id, the time and the
cached message of the record: position and name of the handler, and the module,
level, level name, arguments and template of the record. -/
def HandleCall.contents (c : HandleCall) :
    Nat × Text × Text × Level × Text × List Arg × Option Text :=
  (c.idx, c.handler, c.record.Module, c.record.Level, c.record.LevelName, c.record.Args,
    c.record.fmt)

/-- The record as the loop of `log` holds it after it has gone through the
handlers `hs`: the cached message is the output of the last formatter among the
handlers that pass the severity check, the rest is untouched. -/
def recordAfter (lvl : Level) : List Handler → Record → Record
  | [], record => record
  | h :: rest, record =>
    if h.GetLevel ≥ lvl then
      match h.GetFormatter with
      | some fm => recordAfter lvl rest { record with message := fm.format record }
      | none => recordAfter lvl rest record
    else recordAfter lvl rest record

/-! # Properties -/

/-! ## Auxiliary facts about the dispatch loop -/

theorem handleCount_cons (c : HandleCall) (cs : List HandleCall) (i : Nat) :
    handleCount (c :: cs) i = (if c.idx = i then 1 else 0) + handleCount cs i := by
  unfold handleCount
  by_cases h : c.idx = i
  · simp [List.filter_cons, h, Nat.add_comm]
  · simp [List.filter_cons, h]

theorem dispatch_idx_ge (lvl : Level) (hs : List Handler) :
    ∀ (k : Nat) (r : Record) (c : HandleCall), c ∈ dispatch lvl k hs r → k ≤ c.idx := by
  induction hs with
  | nil => intro k r c hc; simp [dispatch] at hc
  | cons h rest ih =>
    intro k r c hc
    unfold dispatch at hc
    split at hc
    · rcases List.mem_cons.mp hc with h1 | h1
      · subst h1; exact Nat.le_refl _
      · exact Nat.le_of_succ_le (ih _ _ _ h1)
    · exact Nat.le_of_succ_le (ih _ _ _ hc)

theorem handleCount_eq_zero_of_lt (lvl : Level) (hs : List Handler) (k i : Nat) (r : Record)
    (hik : i < k) : handleCount (dispatch lvl k hs r) i = 0 := by
  unfold handleCount
  rw [List.length_eq_zero, List.filter_eq_nil_iff]
  intro c hc
  have := dispatch_idx_ge lvl hs k r c hc
  simp only [decide_eq_true_eq]
  omega

theorem dispatch_count (lvl : Level) (hs : List Handler) :
    ∀ (k : Nat) (r : Record) (j : Nat) (hj : j < hs.length),
      handleCount (dispatch lvl k hs r) (k + j) = if hs[j].GetLevel ≥ lvl then 1 else 0 := by
  induction hs with
  | nil => intro k r j hj; simp at hj
  | cons h rest ih =>
    intro k r j hj
    cases j with
    | zero =>
      unfold dispatch
      by_cases hl : h.GetLevel ≥ lvl
      · simp only [hl, if_true, handleCount_cons, Nat.add_zero, List.getElem_cons_zero]
        rw [handleCount_eq_zero_of_lt lvl rest (k + 1) k _ (Nat.lt_succ_self k)]
      · simp only [hl, if_false, Nat.add_zero, List.getElem_cons_zero]
        exact handleCount_eq_zero_of_lt lvl rest (k + 1) k _ (Nat.lt_succ_self k)
    | succ j =>
      have hj2 : j < rest.length := by simpa using hj
      have e : k + (j + 1) = (k + 1) + j := by omega
      unfold dispatch
      by_cases hl : h.GetLevel ≥ lvl
      · simp only [hl, if_true, handleCount_cons, List.getElem_cons_succ]
        rw [e, ih (k + 1) _ j hj2]
        have : ¬ (k = k + 1 + j) := by omega
        simp [this]
      · simp only [hl, if_false, List.getElem_cons_succ]
        rw [e, ih (k + 1) _ j hj2]

/-- Every call made by the loop is on a handler of the stack that passes the
severity check, and names that handler. -/
theorem dispatch_mem (lvl : Level) (hs : List Handler) :
    ∀ (k : Nat) (r : Record) (c : HandleCall), c ∈ dispatch lvl k hs r →
      ∃ j, ∃ hj : j < hs.length, c.idx = k + j ∧ c.handler = hs[j].name ∧
        hs[j].GetLevel ≥ lvl := by
  induction hs with
  | nil => intro k r c hc; simp [dispatch] at hc
  | cons h rest ih =>
    intro k r c hc
    have step : ∀ r2, c ∈ dispatch lvl (k + 1) rest r2 →
        ∃ j, ∃ hj : j < (h :: rest).length, c.idx = k + j ∧ c.handler = (h :: rest)[j].name ∧
          (h :: rest)[j].GetLevel ≥ lvl := by
      intro r2 h1
      obtain ⟨j, hj, e1, e2, e3⟩ := ih _ _ _ h1
      exact ⟨j + 1, Nat.succ_lt_succ hj, by omega, by simpa using e2, by simpa using e3⟩
    unfold dispatch at hc
    split at hc
    · rename_i hl
      rcases List.mem_cons.mp hc with h1 | h1
      · subst h1
        exact ⟨0, Nat.succ_pos _, rfl, rfl, hl⟩
      · exact step _ h1
    · exact step _ hc

/-! ## Severity filtering -/

/-- Claim C1.  In a call of `log` at level `L`, the handler at any position `i` of
the stack has `Handle` invoked once when its `GetLevel()` is at least `L` and not
at all otherwise.  So a WARNING handler is skipped by DEBUG, INFO and NOTICE calls
and reached by WARNING, ERROR and CRITICAL calls, a DEBUG handler is reached by
calls at all six levels, and an ERROR handler is reached exactly by ERROR and
CRITICAL calls. -/
theorem log_severity_filter (l : Logger) (sequenceNo now : Nat) (L : Level)
    (format : Option Text) (args : List Arg) (i : Nat) (hi : i < l.handlers.length) :
    (handleCount (l.log sequenceNo now L format args).calls i
        = if l.handlers[i].GetLevel ≥ L then 1 else 0) ∧
    (handleCount (l.log sequenceNo now L format args).calls i = 1
        ↔ l.handlers[i].GetLevel ≥ L) ∧
    (l.handlers[i].GetLevel = WARNING →
      ((L = DEBUG ∨ L = INFO ∨ L = NOTICE) →
        handleCount (l.log sequenceNo now L format args).calls i = 0) ∧
      ((L = WARNING ∨ L = ERROR ∨ L = CRITICAL) →
        handleCount (l.log sequenceNo now L format args).calls i = 1)) ∧
    (l.handlers[i].GetLevel = DEBUG → L ≤ DEBUG →
      handleCount (l.log sequenceNo now L format args).calls i = 1) ∧
    (l.handlers[i].GetLevel = ERROR →
      (handleCount (l.log sequenceNo now L format args).calls i = 1
        ↔ (L = ERROR ∨ L = CRITICAL))) := by
  have key : handleCount (l.log sequenceNo now L format args).calls i
      = if l.handlers[i].GetLevel ≥ L then 1 else 0 := by
    have := dispatch_count L l.handlers 0 (l.log sequenceNo now L format args).record i hi
    simpa [Logger.log] using this
  rw [key]
  refine ⟨rfl, ?_, ?_, ?_, ?_⟩
  · by_cases h : l.handlers[i].GetLevel ≥ L <;> simp [h]
  · intro hw
    rw [hw]
    simp only [WARNING, DEBUG, INFO, NOTICE, ERROR, CRITICAL]
    refine ⟨?_, ?_⟩
    · rintro (h | h | h) <;> subst h <;> decide
    · rintro (h | h | h) <;> subst h <;> decide
  · intro hd hL
    rw [hd]
    simp only [DEBUG] at hL ⊢
    simp [hL]
  · intro he
    rw [he]
    simp only [ERROR, CRITICAL]
    by_cases h : (1 : Nat) ≥ L
    · simp only [h, if_true, true_iff]
      rcases Nat.le_one_iff_eq_zero_or_eq_one.mp h with h0 | h0
      · exact Or.inr h0
      · exact Or.inl h0
    · simp only [h, if_false]; constructor
      · intro h0; exact absurd h0 (by decide)
      · rintro (h0 | h0) <;> subst h0 <;> exact absurd (by decide) h

/-- Witness for C1: an INFO call on a logger whose only handler has threshold
WARNING does not reach the handler. -/
theorem log_severity_filter_witness :
    handleCount (((NewLogger "svc").PushHandler (plainHandler "H" WARNING)).log
      0 0 INFO none [Arg.str "x"]).calls 0 = 0 :=
  ((log_severity_filter ((NewLogger "svc").PushHandler (plainHandler "H" WARNING))
      0 0 INFO none [Arg.str "x"] 0 (by decide)).2.2.1 rfl).1 (Or.inr (Or.inl rfl))

/-! ## The handler stack -/

/-- Claim C2, counterexample.  After `PushHandler(A)` and `PushHandler(B)` on an empty
stack, both handlers at level DEBUG, the call `Info("hi")` invokes `B.Handle` first
and `A.Handle` second: the observed order is not `[A, B]`. -/
theorem push_push_info_order_counterexample :
    ((((NewLogger "svc").PushHandler (plainHandler "A" DEBUG)).PushHandler
        (plainHandler "B" DEBUG)).Info 0 0 [Arg.str "hi"]).calls.map (fun c => c.handler)
      = ["B", "A"] ∧
    ((((NewLogger "svc").PushHandler (plainHandler "A" DEBUG)).PushHandler
        (plainHandler "B" DEBUG)).Info 0 0 [Arg.str "hi"]).calls.map (fun c => c.handler)
      ≠ ["A", "B"] := by
  decide

/-- Claim C2, as amended.  Starting from an empty stack, `PushHandler(A)` then
`PushHandler(B)`, both at level DEBUG, followed by `Info("hi")` invokes `B.Handle`
and then `A.Handle`, and nothing else; when neither handler has the formatter
capability each receives a record whose message is "hi". -/
theorem push_push_info_order (l : Logger) (A B : Handler) (sequenceNo now : Nat)
    (hl : l.handlers = []) (hA : A.GetLevel = DEBUG) (hB : B.GetLevel = DEBUG) :
    (((l.PushHandler A).PushHandler B).Info sequenceNo now [Arg.str "hi"]).calls.map
        (fun c => (c.idx, c.handler)) = [(0, B.name), (1, A.name)] ∧
    (A.GetFormatter = none → B.GetFormatter = none →
      ∀ c ∈ (((l.PushHandler A).PushHandler B).Info sequenceNo now [Arg.str "hi"]).calls,
        c.record.Message.1 = "hi") := by
  have hcalls : ∀ r : Record, dispatch INFO 0 [B, A] r =
      [⟨0, B.name, (match B.GetFormatter with
          | some fm => { r with message := fm.format r }
          | none => r)⟩,
       ⟨1, A.name, (match A.GetFormatter with
          | some fm => { (match B.GetFormatter with
              | some fm => { r with message := fm.format r }
              | none => r) with message := fm.format (match B.GetFormatter with
              | some fm => { r with message := fm.format r }
              | none => r) }
          | none => (match B.GetFormatter with
              | some fm => { r with message := fm.format r }
              | none => r))⟩] := by
    intro r
    have h1 : B.GetLevel ≥ INFO := by rw [hB]; decide
    have h2 : A.GetLevel ≥ INFO := by rw [hA]; decide
    simp only [dispatch, h1, h2, if_true]
  have hstack : ((l.PushHandler A).PushHandler B).handlers = [B, A] := by
    simp [Logger.PushHandler, hl]
  refine ⟨?_, ?_⟩
  · simp only [Logger.Info, Logger.log, hstack, hcalls, List.map_cons, List.map_nil]
  · intro fA fB c hc
    simp only [Logger.Info, Logger.log, hstack, hcalls, fA, fB, List.mem_cons,
      List.mem_singleton, List.not_mem_nil, or_false] at hc
    rcases hc with hc | hc <;> subst hc <;> rfl

/-- Witness for C2 as amended, with two plain handlers named "A" and "B". -/
theorem push_push_info_order_witness :
    ((((NewLogger "svc").PushHandler (plainHandler "A" DEBUG)).PushHandler
        (plainHandler "B" DEBUG)).Info 7 0 [Arg.str "hi"]).calls.map
        (fun c => (c.idx, c.handler)) = [(0, "B"), (1, "A")] :=
  (push_push_info_order (NewLogger "svc") (plainHandler "A" DEBUG) (plainHandler "B" DEBUG)
    7 0 rfl rfl rfl).1

/-- Claim C3.  After `PushHandler(h)` the stack is `h` followed by the previous
stack, and a dispatch makes its call on `h` (one call when `h` passes the severity
check, none otherwise) before all its calls on the handlers that were already on
the stack, which now sit one position further. -/
theorem pushHandler_front (l : Logger) (h : Handler) (sequenceNo now : Nat) (lvl : Level)
    (format : Option Text) (args : List Arg) :
    (l.PushHandler h).GetHandlers = h :: l.GetHandlers ∧
    ∃ pre post : List HandleCall,
      ((l.PushHandler h).log sequenceNo now lvl format args).calls = pre ++ post ∧
      pre.length = (if h.GetLevel ≥ lvl then 1 else 0) ∧
      (∀ c ∈ pre, c.idx = 0 ∧ c.handler = h.name) ∧
      (∀ c ∈ post, ∃ j, ∃ hj : j < l.handlers.length,
        c.idx = j + 1 ∧ c.handler = l.handlers[j].name) := by
  refine ⟨rfl, ?_⟩
  have hstack : (l.PushHandler h).handlers = h :: l.handlers := rfl
  have tailOk : ∀ (r : Record) (c : HandleCall), c ∈ dispatch lvl 1 l.handlers r →
      ∃ j, ∃ hj : j < l.handlers.length, c.idx = j + 1 ∧ c.handler = l.handlers[j].name := by
    intro r c hc
    obtain ⟨j, hj, e1, e2, _⟩ := dispatch_mem lvl l.handlers 1 r c hc
    exact ⟨j, hj, by omega, e2⟩
  simp only [Logger.log, hstack]
  unfold dispatch
  by_cases hl : h.GetLevel ≥ lvl
  · simp only [hl, if_true]
    refine ⟨[_], _, rfl, rfl, ?_, tailOk _⟩
    intro c hc
    rw [List.mem_singleton] at hc
    subst hc
    exact ⟨rfl, rfl⟩
  · simp only [hl, if_false]
    exact ⟨[], _, rfl, rfl, by simp, tailOk _⟩

/-- Claim C4.  On a non-empty stack `PopHandler` returns the last element and
leaves the stack without its last element: the same elements in the same order,
one fewer.  When the stack has two elements or more the front element stays at
the front and the returned element comes from behind it; the front element is
returned only from a stack of exactly one element. -/
theorem popHandler_last (l : Logger) (hne : l.handlers ≠ []) :
    l.PopHandler.1 = Except.ok (l.handlers.getLast hne) ∧
    l.PopHandler.2.handlers = l.handlers.dropLast ∧
    l.PopHandler.2.handlers ++ [l.handlers.getLast hne] = l.handlers ∧
    l.PopHandler.2.handlers.length + 1 = l.handlers.length ∧
    (∀ (h : Handler) (s : List Handler) (hs : s ≠ []), l.handlers = h :: s →
      l.PopHandler.1 = Except.ok (s.getLast hs) ∧
      l.PopHandler.2.handlers = h :: s.dropLast) ∧
    (∀ h : Handler, l.handlers = [h] →
      l.PopHandler.1 = Except.ok h ∧ l.PopHandler.2.handlers = []) ∧
    l.PopHandler.2.Name = l.Name ∧ l.PopHandler.2.closed = l.closed := by
  have h0 : ¬ l.handlers.length = 0 := by
    intro h; exact hne (List.length_eq_zero.mp h)
  have e1 : l.PopHandler.1 = Except.ok (l.handlers.getLast hne) := by
    unfold Logger.PopHandler
    rw [dif_neg h0]
    simp only [List.getLast_eq_getElem]
  have e2 : l.PopHandler.2.handlers = l.handlers.dropLast := by
    unfold Logger.PopHandler
    rw [dif_neg h0]
    simp only [List.dropLast_eq_take]
  have e3 : l.PopHandler.2.Name = l.Name ∧ l.PopHandler.2.closed = l.closed := by
    unfold Logger.PopHandler
    rw [dif_neg h0]
    exact ⟨rfl, rfl⟩
  refine ⟨e1, e2, ?_, ?_, ?_, ?_, e3.1, e3.2⟩
  · rw [e2]; exact List.dropLast_append_getLast hne
  · rw [e2, List.length_dropLast]
    have : 0 < l.handlers.length := Nat.pos_of_ne_zero h0
    omega
  · intro h s hs hl
    refine ⟨?_, ?_⟩
    · rw [e1]
      congr 1
      simp only [hl]
      exact List.getLast_cons hs
    · rw [e2, hl]
      cases s with
      | nil => exact absurd rfl hs
      | cons a t => rfl
  · intro h hl
    refine ⟨?_, ?_⟩
    · rw [e1]; congr 1; simp only [hl]; rfl
    · rw [e2, hl]; rfl

/-- Witness for C4: popping from the stack `[B, A]` (A pushed first, B pushed last)
returns A and leaves `[B]`. -/
theorem popHandler_last_witness :
    (Logger.PopHandler ⟨"svc", 0, [plainHandler "B" DEBUG, plainHandler "A" DEBUG], false⟩).1
      = Except.ok (plainHandler "A" DEBUG) ∧
    (Logger.PopHandler ⟨"svc", 0, [plainHandler "B" DEBUG, plainHandler "A" DEBUG],
      false⟩).2.handlers = [plainHandler "B" DEBUG] :=
  ⟨(popHandler_last ⟨"svc", 0, [plainHandler "B" DEBUG, plainHandler "A" DEBUG], false⟩
      (by simp)).1,
   (popHandler_last ⟨"svc", 0, [plainHandler "B" DEBUG, plainHandler "A" DEBUG], false⟩
      (by simp)).2.1⟩

/-- Claim C5.  `PopHandler` panics exactly when the handler stack is empty, and
returns a handler exactly when it is not.  On the empty stack the outcome is the
panic with its message, no handler is returned, and the logger is left as it
was. -/
theorem popHandler_panics_iff_empty (l : Logger) :
    ((∃ msg, l.PopHandler.1 = Except.error msg) ↔ l.handlers = []) ∧
    ((∃ h, l.PopHandler.1 = Except.ok h) ↔ l.handlers ≠ []) ∧
    (l.handlers = [] →
      l.PopHandler.1 = Except.error "You tried to pop from an empty handler stack." ∧
      l.PopHandler.2 = l) := by
  by_cases h0 : l.handlers.length = 0
  · have hnil : l.handlers = [] := List.length_eq_zero.mp h0
    have e : l.PopHandler =
        (Except.error "You tried to pop from an empty handler stack.", l) := by
      unfold Logger.PopHandler
      rw [dif_pos h0]
    rw [e]
    refine ⟨⟨fun _ => hnil, fun _ => ⟨_, rfl⟩⟩, ⟨?_, fun hne => absurd hnil hne⟩,
      fun _ => ⟨rfl, rfl⟩⟩
    rintro ⟨h, hh⟩
    cases hh
  · have hne : l.handlers ≠ [] := fun h => h0 (by rw [h]; rfl)
    have e : ∃ h, l.PopHandler.1 = Except.ok h := by
      unfold Logger.PopHandler
      rw [dif_neg h0]
      exact ⟨_, rfl⟩
    obtain ⟨h, hh⟩ := e
    rw [hh]
    refine ⟨⟨?_, fun hnil => absurd hnil hne⟩, ⟨fun _ => hne, fun _ => ⟨h, rfl⟩⟩,
      fun hnil => absurd hnil hne⟩
    rintro ⟨msg, hm⟩
    cases hm

/-! ## Closing -/

theorem closeLoop_length (hs : List Handler) :
    ∀ k : Nat, (closeLoop k hs).length = hs.length := by
  induction hs with
  | nil => intro k; rfl
  | cons h rest ih => intro k; simp [closeLoop, ih]

theorem closeLoop_getElem? (hs : List Handler) :
    ∀ (k i : Nat) (hi : i < hs.length),
      (closeLoop k hs)[i]? = some ⟨k + i, hs[i].name, hs[i].Close⟩ := by
  induction hs with
  | nil => intro k i hi; simp at hi
  | cons h rest ih =>
    intro k i hi
    cases i with
    | zero => simp [closeLoop]
    | succ i =>
      have hi2 : i < rest.length := by simpa using hi
      have e : k + (i + 1) = (k + 1) + i := by omega
      simp only [closeLoop, List.getElem?_cons_succ, List.getElem_cons_succ]
      rw [ih (k + 1) i hi2, e]

theorem closeLoop_idx (hs : List Handler) :
    ∀ k : Nat, (closeLoop k hs).map (fun c => c.idx) = List.range' k hs.length := by
  induction hs with
  | nil => intro k; rfl
  | cons h rest ih => intro k; simp [closeLoop, ih, List.range']

theorem closeLoop_handler (hs : List Handler) :
    ∀ k : Nat, (closeLoop k hs).map (fun c => c.handler) = hs.map (fun h => h.name) := by
  induction hs with
  | nil => intro k; rfl
  | cons h rest ih => intro k; simp [closeLoop, ih]

theorem close_of_closed (l : Logger) (hc : l.closed = true) : l.Close = (l, []) := by
  unfold Logger.Close
  rw [if_pos hc]

theorem closeTimes_of_closed (l : Logger) (hc : l.closed = true) :
    ∀ n : Nat, closeTimes n l = (l, []) := by
  intro n
  induction n with
  | zero => rfl
  | succ n ih => simp only [closeTimes, close_of_closed l hc, ih, List.append_nil]

/-- Claim C6.  On a logger that has not been closed, any number `n ≥ 1` of calls of
`Close` in a row invokes `Close` on the handlers of the stack once each, in stack
order, and leaves the logger closed with nothing else changed; after the first
call, further calls invoke no handler and change no state. -/
theorem close_idempotent (l : Logger) (n : Nat) (hopen : l.closed = false) (hn : 1 ≤ n) :
    (closeTimes n l).2 = l.Close.2 ∧
    (closeTimes n l).2.map (fun c => c.idx) = List.range l.handlers.length ∧
    (closeTimes n l).2.map (fun c => c.handler) = l.handlers.map (fun h => h.name) ∧
    (closeTimes n l).1 = { l with closed := true } ∧
    (closeTimes n l).1.closed = true ∧
    (∀ m : Nat, closeTimes m l.Close.1 = (l.Close.1, [])) ∧
    l.Close.1.Close = (l.Close.1, []) := by
  have hclose : l.Close = ({ l with closed := true }, closeLoop 0 l.handlers) := by
    unfold Logger.Close
    simp [hopen]
  have hc1 : l.Close.1.closed = true := by rw [hclose]
  obtain ⟨m, rfl⟩ : ∃ m, n = m + 1 := ⟨n - 1, by omega⟩
  have hrun : closeTimes (m + 1) l = (l.Close.1, l.Close.2) := by
    simp only [closeTimes, closeTimes_of_closed l.Close.1 hc1 m, List.append_nil]
  rw [hrun]
  refine ⟨rfl, ?_, ?_, ?_, hc1, closeTimes_of_closed l.Close.1 hc1,
    close_of_closed l.Close.1 hc1⟩
  · rw [hclose]
    simp only [closeLoop_idx, List.range_eq_range']
  · rw [hclose]
    simp only [closeLoop_handler]
  · rw [hclose]

/-- Witness for C6: two calls of `Close` on an open logger with handlers "B" and "A"
close "B" and then "A", once each. -/
theorem close_idempotent_witness :
    (closeTimes 2 ⟨"svc", 0, [plainHandler "B" DEBUG, plainHandler "A" INFO], false⟩).2.map
      (fun c => c.handler) = ["B", "A"] :=
  (close_idempotent ⟨"svc", 0, [plainHandler "B" DEBUG, plainHandler "A" INFO], false⟩ 2
    rfl (by decide)).2.2.1

/-- Claim C7.  The first `Close` of a logger invokes `Close` on every handler of the
stack, in stack order, whatever errors the handlers return: the call on the
handler at position `i` is the `i`-th call, its error is discarded, and the calls
on the later handlers follow.  `Close` itself ends normally, with the logger
closed and its stack unchanged. -/
theorem close_best_effort (l : Logger) (hopen : l.closed = false) :
    l.Close.2.length = l.handlers.length ∧
    (∀ (i : Nat) (hi : i < l.handlers.length),
      l.Close.2[i]? = some ⟨i, l.handlers[i].name, l.handlers[i].Close⟩) ∧
    l.Close.2.map (fun c => c.handler) = l.handlers.map (fun h => h.name) ∧
    l.Close.1.closed = true ∧ l.Close.1.handlers = l.handlers := by
  have hclose : l.Close = ({ l with closed := true }, closeLoop 0 l.handlers) := by
    unfold Logger.Close
    simp [hopen]
  rw [hclose]
  refine ⟨closeLoop_length _ 0, ?_, closeLoop_handler _ 0, rfl, rfl⟩
  intro i hi
  simpa using closeLoop_getElem? l.handlers 0 i hi

/-- Witness for C7: the first handler returns an error from `Close`, the second
handler is closed all the same. -/
theorem close_best_effort_witness :
    (Logger.Close ⟨"svc", 0, [failingHandler "B" DEBUG "disk full", plainHandler "A" INFO],
      false⟩).2[0]? = some ⟨0, "B", some "disk full"⟩ ∧
    (Logger.Close ⟨"svc", 0, [failingHandler "B" DEBUG "disk full", plainHandler "A" INFO],
      false⟩).2[1]? = some ⟨1, "A", none⟩ :=
  ⟨(close_best_effort
      ⟨"svc", 0, [failingHandler "B" DEBUG "disk full", plainHandler "A" INFO], false⟩
      rfl).2.1 0 (by decide),
   (close_best_effort
      ⟨"svc", 0, [failingHandler "B" DEBUG "disk full", plainHandler "A" INFO], false⟩
      rfl).2.1 1 (by decide)⟩

/-! ## Level names -/

/-- Claim C8.  `Level.String` returns "CRITICAL", "ERROR", "WARNING", "NOTICE", "INFO"
and "DEBUG" for the values 0 to 5, which are the constants of these names in
increasing order; the six names are pairwise distinct; and every other value
gives "UNKNOWN".  The function is total: the array is only indexed in range. -/
theorem level_string_names :
    Level.String 0 = "CRITICAL" ∧ Level.String 1 = "ERROR" ∧ Level.String 2 = "WARNING" ∧
    Level.String 3 = "NOTICE" ∧ Level.String 4 = "INFO" ∧ Level.String 5 = "DEBUG" ∧
    (CRITICAL = 0 ∧ ERROR = 1 ∧ WARNING = 2 ∧ NOTICE = 3 ∧ INFO = 4 ∧ DEBUG = 5) ∧
    (CRITICAL < ERROR ∧ ERROR < WARNING ∧ WARNING < NOTICE ∧ NOTICE < INFO ∧ INFO < DEBUG) ∧
    ((List.range 6).map Level.String).Nodup ∧
    (∀ l : Level, 5 < l → Level.String l = "UNKNOWN") ∧
    (∀ l : Level, 6 ≤ l → l ≤ 255 → Level.String l = "UNKNOWN") := by
  have unknown : ∀ l : Level, 5 < l → Level.String l = "UNKNOWN" := by
    intro l hl
    unfold Level.String
    rw [dif_pos (Or.inr hl)]
  refine ⟨by decide, by decide, by decide, by decide, by decide, by decide, by decide,
    by decide, by decide, unknown, fun l h6 _ => unknown l h6⟩

/-! ## Rendering a record -/

theorem push_space (s : String) : s.push ' ' = s ++ " " := by
  cases s; rfl

theorem doPrintln_succ (rest : List Arg) :
    ∀ (a : Arg) (k : Nat) (buf : Text),
      doPrintln (k + 1) rest (buf ++ a.text)
        = buf ++ joinWithSpaces ((a :: rest).map Arg.text) := by
  induction rest with
  | nil => intro a k buf; rfl
  | cons b rest ih =>
    intro a k buf
    have hk : k + 1 > 0 := Nat.succ_pos k
    simp only [doPrintln, hk, if_true, List.map_cons, joinWithSpaces]
    rw [push_space, ih b (k + 1) (buf ++ a.text ++ " ")]
    simp only [List.map_cons, String.append_assoc]

theorem doPrintln_zero (args : List Arg) :
    doPrintln 0 args "" = joinWithSpaces (args.map Arg.text) := by
  cases args with
  | nil => rfl
  | cons a rest =>
    have h0 : ¬ (0 > 0) := Nat.lt_irrefl 0
    simp only [doPrintln, h0, if_false]
    rw [doPrintln_succ rest a 0 ""]
    simp only [String.empty_append]

theorem intercalate_go (ts : List Text) :
    ∀ (t acc : Text),
      String.intercalate.go (acc ++ t) " " ts = acc ++ joinWithSpaces (t :: ts) := by
  induction ts with
  | nil => intro t acc; rfl
  | cons b ts ih =>
    intro t acc
    simp only [String.intercalate.go, joinWithSpaces]
    rw [ih b (acc ++ t ++ " ")]
    simp only [String.append_assoc]

theorem joinWithSpaces_eq_intercalate (ts : List Text) :
    joinWithSpaces ts = String.intercalate " " ts := by
  cases ts with
  | nil => rfl
  | cons t ts =>
    have := intercalate_go ts t ""
    simp only [String.empty_append] at this
    simp only [String.intercalate, this]

/-- Writing a text that ends in a newline to a fresh buffer and truncating by one
leaves the text without the newline, in a slice that is not nil. -/
theorem truncate_written (x : Text) :
    (Buffer.zero.Write (x.push '\n')).Truncate ((Buffer.zero.Write (x.push '\n')).Len - 1)
      = ⟨some x⟩ := by
  have hne : ¬ ((x.push '\n').data = []) := by
    cases x; simp [String.push]
  have hw : Buffer.zero.Write (x.push '\n') = ⟨some (x.push '\n')⟩ := by
    simp only [Buffer.Write, Buffer.zero, hne, if_false]
  rw [hw]
  cases x with
  | mk d => simp [Buffer.Truncate, Buffer.Len, Bytes.toText, String.push]

/-- The first render of a record without a template: the text and the record
after the call. -/
theorem message_default (r : Record) (hf : r.fmt = none) (hm : r.message = none) :
    r.Message = (joinWithSpaces (r.Args.map Arg.text),
      { r with message := some (joinWithSpaces (r.Args.map Arg.text)),
               Args := r.Args.map Arg.next }) := by
  unfold Record.Message
  simp only [hm, hf, Sprintln, truncate_written, Buffer.Bytes, Bytes.toText, doPrintln_zero]

/-- The first render of a record with a template: the text and the record after
the call. -/
theorem message_formatted (r : Record) (format : Text) (hf : r.fmt = some format)
    (hm : r.message = none) :
    r.Message = (Sprintf format r.Args,
      { r with message := (Buffer.zero.Write (Sprintf format r.Args)).Bytes,
               Args := argsAfterPrintf format.data r.Args }) := by
  unfold Record.Message
  simp only [hm, hf]
  congr 1
  simp only [Buffer.Write, Buffer.zero, Buffer.Bytes]
  split
  · rename_i h
    simp only [Bytes.toText]
    exact String.ext (by simp [h])
  · rfl

/-- Claim C9.  For a record with no template and no cached message, `Message()` is
the texts of the arguments joined by exactly one space between adjacent arguments:
it is what `Fprintln` writes without the final newline.  With no argument it is the
empty string, with one argument that argument's text, and for the arguments "a"
and "b" it is "a b". -/
theorem message_no_template (r : Record) (hf : r.fmt = none) (hm : r.message = none) :
    r.Message.1 = joinWithSpaces (r.Args.map Arg.text) ∧
    r.Message.1 = String.intercalate " " (r.Args.map Arg.text) ∧
    r.Message.1.push '\n' = Sprintln r.Args ∧
    (r.Args = [] → r.Message.1 = "") ∧
    (∀ a : Arg, r.Args = [a] → r.Message.1 = a.text) ∧
    (r.Args = [Arg.str "a", Arg.str "b"] → r.Message.1 = "a b") := by
  have key : r.Message.1 = joinWithSpaces (r.Args.map Arg.text) := by
    rw [message_default r hf hm]
  refine ⟨key, ?_, ?_, ?_, ?_, ?_⟩
  · rw [key, joinWithSpaces_eq_intercalate]
  · rw [key, Sprintln, doPrintln_zero]
  · intro h; rw [key, h]; rfl
  · intro a h; rw [key, h]; rfl
  · intro h; rw [key, h]; decide

/-- Witness for C9: the arguments "a" and "b" render as "a b". -/
theorem message_no_template_witness :
    (Record.Message ⟨1, 0, "svc", INFO, "INFO", [Arg.str "a", Arg.str "b"], none, none⟩).1
      = "a b" :=
  (message_no_template ⟨1, 0, "svc", INFO, "INFO", [Arg.str "a", Arg.str "b"], none, none⟩
    rfl rfl).2.2.2.2.2 rfl

/-- Claim C10.  For a record with no cached message and a template whose
directives are the verbs `v`, `s`, `d`, `t` and the doubled percent sign, on which
`Sprintf` is the printf-style substitution of `fmt`, `Message()` is what the
substitution of the arguments into the template produces, with nothing appended
or stripped (the buffer is not truncated on this branch); for the template
"%s=%d" and the arguments "x" and 5 it is "x=5". -/
theorem message_template (r : Record) (format : Text) (hf : r.fmt = some format)
    (hm : r.message = none) (hsimple : simpleTemplate format.data = true) :
    r.Message.1 = Sprintf format r.Args ∧
    r.Message.1 = Bytes.toText (Buffer.zero.Write (Sprintf format r.Args)).Bytes ∧
    simpleTemplate "%s=%d".data = true ∧
    (format = "%s=%d" → r.Args = [Arg.str "x", Arg.int 5] → r.Message.1 = "x=5") := by
  have key : r.Message.1 = Sprintf format r.Args := by
    rw [message_formatted r format hf hm]
  have written : r.Message.1
      = Bytes.toText (Buffer.zero.Write (Sprintf format r.Args)).Bytes := by
    rw [key]
    simp only [Buffer.Write, Buffer.zero, Buffer.Bytes]
    split
    · rename_i h
      simp only [Bytes.toText]
      exact String.ext (by simp [h])
    · rfl
  refine ⟨key, written, by decide, ?_⟩
  intro h1 h2
  rw [key, h1, h2]
  decide

/-- Witness for C10: the template "%s=%d" with the arguments "x" and 5 renders as
"x=5". -/
theorem message_template_witness :
    (Record.Message ⟨1, 0, "svc", INFO, "INFO", [Arg.str "x", Arg.int 5], none,
      some "%s=%d"⟩).1 = "x=5" :=
  (message_template ⟨1, 0, "svc", INFO, "INFO", [Arg.str "x", Arg.int 5], none,
    some "%s=%d"⟩ "%s=%d" rfl rfl (by decide)).2.2.2 rfl rfl

/-! ## The render cache -/

/-- A record whose message is set renders as that message and is left as it is. -/
theorem message_cached (r : Record) (m : Text) (hm : r.message = some m) :
    r.Message = (m, r) := by
  unfold Record.Message
  simp only [hm]

theorem message_cached_with (r : Record) (m : Text) :
    ({ r with message := some m } : Record).Message = (m, { r with message := some m }) :=
  message_cached _ m rfl

theorem map_next_of_pure (args : List Arg) (hp : ∀ a ∈ args, a.next = a) :
    args.map Arg.next = args := by
  induction args with
  | nil => rfl
  | cons a rest ih =>
    rw [List.map_cons, hp a (List.mem_cons_self a rest),
      ih (fun b hb => hp b (List.mem_cons_of_mem a hb))]

theorem argsAfterPrintf_of_pure_aux (n : Nat) :
    ∀ cs : List Char, cs.length ≤ n →
      ∀ args : List Arg, (∀ a ∈ args, a.next = a) → argsAfterPrintf cs args = args := by
  induction n with
  | zero =>
    intro cs hlen args hp
    have hnil : cs = [] := List.length_eq_zero.mp (Nat.le_zero.mp hlen)
    subst hnil
    exact map_next_of_pure args hp
  | succ n ih =>
    intro cs hlen args hp
    cases cs with
    | nil => exact map_next_of_pure args hp
    | cons c rest =>
      have hrest : rest.length ≤ n := Nat.le_of_succ_le_succ hlen
      rw [argsAfterPrintf.eq_def]
      simp only []
      by_cases hc : c = '%'
      · simp only [hc, if_true]
        cases rest with
        | nil => exact map_next_of_pure args hp
        | cons verb rest2 =>
          have hrest2 : rest2.length ≤ n := Nat.le_of_succ_le hrest
          simp only []
          by_cases hv : verb = '%'
          · simp only [hv, if_true]
            exact ih rest2 hrest2 args hp
          · simp only [hv, if_false]
            cases args with
            | nil => rfl
            | cons x xs =>
              have hx : x.next = x := hp x (List.mem_cons_self x xs)
              have hxs : ∀ a ∈ xs, a.next = a := fun a ha => hp a (List.mem_cons_of_mem x ha)
              simp only [hx, ite_self, ih rest2 hrest2 xs hxs]
      · simp only [hc, if_false]
        exact ih rest hrest args hp

theorem argsAfterPrintf_of_pure (cs : List Char) (args : List Arg)
    (hp : ∀ a ∈ args, a.next = a) : argsAfterPrintf cs args = args :=
  argsAfterPrintf_of_pure_aux cs.length cs (Nat.le_refl _) args hp

/-- Claim C11, the code at the failing input, and where the claim holds.  The
operand `v` of the record of `Infof("%s", v)` has a method `String()` that returns
"" at its first call and "x" at its second: the first `Message()` returns "" and
leaves the cached message nil, so the second call renders again and returns "x".
Two consecutive calls return the same text whenever the first one leaves a
message that is not nil, and whenever no operand has a method with state. -/
theorem message_twice :
    (Record.Message ⟨1, 0, "svc", INFO, "INFO", [Arg.stringer "main.T" "v" ["", "x"]], none,
      some "%s"⟩).1 = "" ∧
    (Record.Message ⟨1, 0, "svc", INFO, "INFO", [Arg.stringer "main.T" "v" ["", "x"]], none,
      some "%s"⟩).2.message = none ∧
    (Record.Message ⟨1, 0, "svc", INFO, "INFO", [Arg.stringer "main.T" "v" ["", "x"]], none,
      some "%s"⟩).2.Message.1 = "x" ∧
    (∀ r : Record, r.Message.2.message ≠ none → r.Message.2.Message.1 = r.Message.1) ∧
    (∀ r : Record, (∀ a ∈ r.Args, a.next = a) → r.Message.2.Message.1 = r.Message.1) := by
  have cached : ∀ r : Record, r.Message.2.message ≠ none →
      r.Message.2.Message.1 = r.Message.1 := by
    intro r hne
    cases hm : r.message with
    | some m => rw [message_cached r m hm, message_cached r m hm]
    | none =>
      cases hf : r.fmt with
      | none =>
        rw [message_default r hf hm]
        exact congrArg Prod.fst (message_cached _ _ rfl)
      | some format =>
        rw [message_formatted r format hf hm] at hne ⊢
        by_cases he : (Sprintf format r.Args).data = []
        · have hb : (Buffer.zero.Write (Sprintf format r.Args)).Bytes = none := by
            simp only [Buffer.Write, Buffer.zero, Buffer.Bytes, he, if_true]
          exact absurd hb hne
        · have hb : (Buffer.zero.Write (Sprintf format r.Args)).Bytes
              = some (Sprintf format r.Args) := by
            simp only [Buffer.Write, Buffer.zero, Buffer.Bytes, he, if_false]
          exact congrArg Prod.fst (message_cached _ _ hb)
  refine ⟨by decide, by decide, by decide, cached, ?_⟩
  intro r hp
  by_cases hne : r.Message.2.message = none
  · cases hm : r.message with
    | some m =>
      rw [message_cached r m hm] at hne
      rw [hm] at hne
      cases hne
    | none =>
      cases hf : r.fmt with
      | none =>
        rw [message_default r hf hm] at hne
        cases hne
      | some format =>
        have hsame : r.Message.2 = r := by
          rw [message_formatted r format hf hm] at hne ⊢
          simp only at hne
          simp only [hne, argsAfterPrintf_of_pure format.data r.Args hp]
          rw [← hm]
        rw [hsame]
  · exact cached r hne

/-- Claim C12, the code at the failing input.  The record of `Infof("%s", "")` renders
as the empty string and its cached message stays nil, so that after `Args` is
changed to "x" the next call of `Message()` returns "x".  The record of `Info()`,
which has no template, renders as the empty string too, and keeps it: after the
same change the next call still returns the empty string. -/
theorem message_cache_empty_render :
    (Record.Message ⟨1, 0, "svc", INFO, "INFO", [Arg.str ""], none, some "%s"⟩).1 = "" ∧
    (Record.Message ⟨1, 0, "svc", INFO, "INFO", [Arg.str ""], none, some "%s"⟩).2.message
      = none ∧
    ((Record.Message ⟨1, 0, "svc", INFO, "INFO", [Arg.str ""], none, some "%s"⟩).2.setArgs
      [Arg.str "x"]).Message.1 = "x" ∧
    (Record.Message ⟨1, 0, "svc", INFO, "INFO", [], none, none⟩).1 = "" ∧
    (Record.Message ⟨1, 0, "svc", INFO, "INFO", [], none, none⟩).2.message = some "" ∧
    ((Record.Message ⟨1, 0, "svc", INFO, "INFO", [], none, none⟩).2.setArgs
      [Arg.str "x"]).Message.1 = "" := by
  decide

/-! ## Formatters in the dispatch loop -/

/-- A handler that passes the severity check gets a call. -/
theorem dispatch_exists_call (lvl : Level) (hs : List Handler) (k : Nat) (r : Record) (j : Nat)
    (hj : j < hs.length) (hacc : hs[j].GetLevel ≥ lvl) :
    ∃ c ∈ dispatch lvl k hs r, c.idx = k + j := by
  have hcount := dispatch_count lvl hs k r j hj
  rw [if_pos hacc] at hcount
  unfold handleCount at hcount
  have hpos : 0 < ((dispatch lvl k hs r).filter (fun c => decide (c.idx = k + j))).length := by
    rw [hcount]; exact Nat.one_pos
  obtain ⟨c, hc⟩ := List.exists_mem_of_length_pos hpos
  rw [List.mem_filter] at hc
  exact ⟨c, hc.1, by simpa using hc.2⟩

/-- The loop changes nothing of the record but the cached message. -/
theorem dispatch_record_fields (lvl : Level) (hs : List Handler) :
    ∀ (k : Nat) (r : Record) (c : HandleCall), c ∈ dispatch lvl k hs r →
      ∃ m : Bytes, c.record = { r with message := m } := by
  induction hs with
  | nil => intro k r c hc; simp [dispatch] at hc
  | cons h rest ih =>
    intro k r c hc
    unfold dispatch at hc
    cases hfmt : h.GetFormatter with
    | none =>
      simp only [hfmt] at hc
      split at hc
      · rcases List.mem_cons.mp hc with h1 | h1
        · subst h1; exact ⟨r.message, rfl⟩
        · exact ih _ _ _ h1
      · exact ih _ _ _ hc
    | some f =>
      simp only [hfmt] at hc
      split at hc
      · rcases List.mem_cons.mp hc with h1 | h1
        · subst h1; exact ⟨f.format r, rfl⟩
        · obtain ⟨m, hm⟩ := ih _ _ _ h1
          exact ⟨m, hm⟩
      · exact ih _ _ _ hc

/-- The record a formattable handler receives carries the output of its own
formatter, computed from the record as the loop holds it at that point. -/
theorem dispatch_own_formatter (lvl : Level) (hs : List Handler) :
    ∀ (k : Nat) (r : Record) (c : HandleCall), c ∈ dispatch lvl k hs r →
      ∀ (j : Nat) (hj : j < hs.length) (fm : Formatter), c.idx = k + j →
        hs[j].GetFormatter = some fm →
        ∃ m : Bytes, c.record = { r with message := fm.format { r with message := m } } := by
  induction hs with
  | nil => intro k r c hc; simp [dispatch] at hc
  | cons h rest ih =>
    intro k r c hc j hj fm hidx hfm
    have tailCase : ∀ m1 : Bytes,
        c ∈ dispatch lvl (k + 1) rest { r with message := m1 } →
        ∃ m : Bytes, c.record = { r with message := fm.format { r with message := m } } := by
      intro m1 h1
      have hge := dispatch_idx_ge lvl rest (k + 1) _ c h1
      cases j with
      | zero => omega
      | succ j2 =>
        have hj2 : j2 < rest.length := by simpa using hj
        have hfm2 : rest[j2].GetFormatter = some fm := by simpa using hfm
        obtain ⟨m, hm⟩ := ih (k + 1) _ c h1 j2 hj2 fm (by omega) hfm2
        exact ⟨m, hm⟩
    unfold dispatch at hc
    cases hfmt : h.GetFormatter with
    | none =>
      simp only [hfmt] at hc
      split at hc
      · rcases List.mem_cons.mp hc with h1 | h1
        · subst h1
          have hj0 : j = 0 := by simp only at hidx; omega
          subst hj0
          have hfm0 : h.GetFormatter = some fm := by simpa using hfm
          rw [hfmt] at hfm0
          cases hfm0
        · exact tailCase r.message h1
      · exact tailCase r.message hc
    | some f =>
      simp only [hfmt] at hc
      split at hc
      · rcases List.mem_cons.mp hc with h1 | h1
        · subst h1
          have hj0 : j = 0 := by simp only at hidx; omega
          subst hj0
          have hfm0 : h.GetFormatter = some fm := by simpa using hfm
          rw [hfmt] at hfm0
          cases hfm0
          exact ⟨r.message, rfl⟩
        · exact tailCase (f.format r) h1
      · exact tailCase r.message hc

/-- Claim C13.  A handler of the stack that passes the severity check and is
formattable, with a formatter that returns a text for every record, gets a call
of `Handle`, and the record passed has as its cached message the output of that
handler's own formatter, whatever message an earlier formatter left: it renders
(`Message()`) as exactly that output. -/
theorem formatter_applied_before_handle (l : Logger) (sequenceNo now : Nat) (lvl : Level)
    (format : Option Text) (args : List Arg) (j : Nat) (hj : j < l.handlers.length)
    (fm : Formatter) (hacc : l.handlers[j].GetLevel ≥ lvl)
    (hfm : l.handlers[j].GetFormatter = some fm)
    (htext : ∀ rec : Record, fm.format rec ≠ none) :
    (∃ c ∈ (l.log sequenceNo now lvl format args).calls, c.idx = j) ∧
    ∀ c ∈ (l.log sequenceNo now lvl format args).calls, c.idx = j →
      ∃ m : Bytes,
        c.record = { (l.log sequenceNo now lvl format args).record with
          message := fm.format
            { (l.log sequenceNo now lvl format args).record with message := m } } ∧
        c.record.Message.1 = Bytes.toText (fm.format
          { (l.log sequenceNo now lvl format args).record with message := m }) := by
  refine ⟨?_, ?_⟩
  · obtain ⟨c, hc, hidx⟩ :=
      dispatch_exists_call lvl l.handlers 0 (l.log sequenceNo now lvl format args).record j hj hacc
    exact ⟨c, hc, by omega⟩
  · intro c hc hidx
    obtain ⟨m, hm⟩ := dispatch_own_formatter lvl l.handlers 0
      (l.log sequenceNo now lvl format args).record c hc j hj fm (by omega) hfm
    refine ⟨m, hm, ?_⟩
    cases hout : fm.format { (l.log sequenceNo now lvl format args).record with message := m } with
    | none => exact absurd hout (htext _)
    | some t =>
      rw [hm, hout, message_cached_with]
      rfl

/-- Witness for C13: a formattable handler whose formatter returns "formatted"
receives a record that renders as "formatted". -/
theorem formatter_applied_before_handle_witness :
    ∃ c ∈ (((NewLogger "svc").PushHandler
        (formattingHandler "F" DEBUG (constFormatter (some "formatted")))).log
          0 0 INFO none [Arg.str "hi"]).calls,
      c.idx = 0 ∧ c.record.Message.1 = "formatted" := by
  have h := formatter_applied_before_handle
    ((NewLogger "svc").PushHandler
      (formattingHandler "F" DEBUG (constFormatter (some "formatted"))))
    0 0 INFO none [Arg.str "hi"] 0 (by decide) (constFormatter (some "formatted"))
    (by decide) rfl (fun _ => Option.some_ne_none _)
  obtain ⟨c, hc, hidx⟩ := h.1
  obtain ⟨m, _, ht⟩ := h.2 c hc hidx
  exact ⟨c, hc, hidx, ht⟩

/-! ## Sequence ids -/

theorem runLogs_length (calls : List LogCall) :
    ∀ s : Nat, (runLogs s calls).length = calls.length := by
  induction calls with
  | nil => intro s; rfl
  | cons c rest ih => intro s; simp [runLogs, ih]

theorem runLogs_ids (calls : List LogCall) :
    ∀ s : Nat, s + calls.length < 2 ^ 64 →
      (runLogs s calls).map (fun res => res.record.ID) = List.range' (s + 1) calls.length := by
  induction calls with
  | nil => intro s _; rfl
  | cons c rest ih =>
    intro s hs
    have hlen : (c :: rest).length = rest.length + 1 := rfl
    have hid : (s + 1) % 2 ^ 64 = s + 1 := Nat.mod_eq_of_lt (by omega)
    have hrest := ih (s + 1) (by omega)
    simp only [runLogs, Logger.log, List.map_cons, hid, hrest, List.length_cons, List.range'_succ]

theorem runLogs_counter (calls : List LogCall) :
    ∀ s : Nat, ∀ res ∈ runLogs s calls, res.sequenceNo = res.record.ID := by
  induction calls with
  | nil => intro s res hres; simp [runLogs] at hres
  | cons c rest ih =>
    intro s res hres
    simp only [runLogs, List.mem_cons] at hres
    rcases hres with h | h
    · subst h; rfl
    · exact ih _ res h

theorem runLogs_calls_id (calls : List LogCall) :
    ∀ s : Nat, ∀ res ∈ runLogs s calls, ∀ c ∈ res.calls, c.record.ID = res.record.ID := by
  induction calls with
  | nil => intro s res hres; simp [runLogs] at hres
  | cons c rest ih =>
    intro s res hres d hd
    simp only [runLogs, List.mem_cons] at hres
    rcases hres with h | h
    · subst h
      obtain ⟨m, hm⟩ := dispatch_record_fields _ _ _ _ d hd
      rw [hm]
      rfl
    · exact ih _ res h d hd

/-- Claim C14.  In a sequential execution that starts with the counter at zero and
makes fewer than `2^64` log calls, through any loggers and at any levels, the
`n`-th call builds a record whose ID is `n`: the ids are 1, 2, 3, ... in the order
of the calls, hence strictly increasing without duplicates or gaps, whether or
not a handler accepts the record; the counter holds the id after each call, and
every handler that is invoked sees that id. -/
theorem sequence_ids (calls : List LogCall) (hlen : calls.length < 2 ^ 64) :
    (runLogs 0 calls).length = calls.length ∧
    (runLogs 0 calls).map (fun res => res.record.ID) = List.range' 1 calls.length ∧
    (∀ n : Nat, n < calls.length →
      ((runLogs 0 calls)[n]?).map (fun res => res.record.ID) = some (n + 1)) ∧
    ((runLogs 0 calls).map (fun res => res.record.ID)).Pairwise (fun a b => a < b) ∧
    ((runLogs 0 calls).map (fun res => res.record.ID)).Nodup ∧
    (∀ res ∈ runLogs 0 calls, res.sequenceNo = res.record.ID) ∧
    (∀ res ∈ runLogs 0 calls, ∀ c ∈ res.calls, c.record.ID = res.record.ID) := by
  have hids := runLogs_ids calls 0 (by omega)
  have hsorted : ((runLogs 0 calls).map (fun res => res.record.ID)).Pairwise
      (fun a b => a < b) := by
    rw [hids]; exact List.pairwise_lt_range' 1 calls.length
  refine ⟨runLogs_length calls 0, hids, ?_, hsorted, ?_, runLogs_counter calls 0,
    runLogs_calls_id calls 0⟩
  · intro n hn
    have h1 : ((runLogs 0 calls).map (fun res => res.record.ID))[n]? = some (n + 1) := by
      rw [hids, List.getElem?_range' 1 1 hn]
      simp [Nat.add_comm]
    simpa [List.getElem?_map] using h1
  · exact hsorted.imp (fun h => Nat.ne_of_lt h)

/-- Witness for C14: three calls through two loggers, the second at a level no
handler accepts, build records with the ids 1, 2 and 3. -/
theorem sequence_ids_witness :
    (runLogs 0
      [⟨(NewLogger "a").PushHandler (plainHandler "H" WARNING), 10, ERROR, none, [Arg.str "x"]⟩,
       ⟨(NewLogger "a").PushHandler (plainHandler "H" WARNING), 11, DEBUG, none, [Arg.str "y"]⟩,
       ⟨NewLogger "b", 12, INFO, some "%d", [Arg.int 3]⟩]).map (fun res => res.record.ID)
      = [1, 2, 3] :=
  (sequence_ids
    [⟨(NewLogger "a").PushHandler (plainHandler "H" WARNING), 10, ERROR, none, [Arg.str "x"]⟩,
     ⟨(NewLogger "a").PushHandler (plainHandler "H" WARNING), 11, DEBUG, none, [Arg.str "y"]⟩,
     ⟨NewLogger "b", 12, INFO, some "%d", [Arg.int 3]⟩] (by decide)).2.1

/-! ## Pushing and popping -/

theorem pushAll_handlers (hs : List Handler) :
    ∀ l : Logger, (pushAll l hs).handlers = hs.reverse ++ l.handlers := by
  induction hs with
  | nil => intro l; rfl
  | cons h rest ih =>
    intro l
    simp only [pushAll, ih, Logger.PushHandler, List.reverse_cons, List.append_assoc]

/-- Popping from a stack that ends in `h` returns `h` and leaves what precedes it. -/
theorem popHandler_snoc (name : Text) (level : Level) (closed : Bool) (s : List Handler)
    (h : Handler) :
    Logger.PopHandler ⟨name, level, s ++ [h], closed⟩
      = (Except.ok h, ⟨name, level, s, closed⟩) := by
  unfold Logger.PopHandler
  simp only [List.length_append, List.length_singleton, Nat.add_sub_cancel,
    List.take_left', List.getElem_concat_length]
  rw [dif_neg (Nat.succ_ne_zero _)]

theorem popTimes_reverse (hs : List Handler) :
    ∀ (name : Text) (level : Level) (closed : Bool),
      popTimes hs.length ⟨name, level, hs.reverse, closed⟩
        = (hs.map Except.ok, ⟨name, level, [], closed⟩) := by
  induction hs with
  | nil => intro name level closed; rfl
  | cons h rest ih =>
    intro name level closed
    simp only [List.length_cons, popTimes, List.reverse_cons, popHandler_snoc, ih,
      List.map_cons]

/-- Claim C18.  Starting from an empty stack, pushing the handlers `h1, ..., hn` in
this order and then popping `n` times returns `h1, h2, ..., hn` in this order,
the handler pushed first being popped first, and leaves the stack empty.  On a
non-empty stack `s`, `PushHandler(h)` followed by `PopHandler` returns the old last
element of `s` and leaves `h` at the front of the rest of `s`. -/
theorem push_pop_fifo (l : Logger) (hs : List Handler) (hempty : l.handlers = []) :
    (popTimes hs.length (pushAll l hs)).1 = hs.map Except.ok ∧
    (popTimes hs.length (pushAll l hs)).2.handlers = [] ∧
    (∀ (l2 : Logger) (hne : l2.handlers ≠ []) (h : Handler),
      ((l2.PushHandler h).PopHandler).1 = Except.ok (l2.handlers.getLast hne) ∧
      ((l2.PushHandler h).PopHandler).2.handlers = h :: l2.handlers.dropLast) := by
  have hstack : (pushAll l hs).handlers = hs.reverse := by
    rw [pushAll_handlers, hempty, List.append_nil]
  have hrun : popTimes hs.length (pushAll l hs)
      = (hs.map Except.ok, ⟨(pushAll l hs).Name, (pushAll l hs).level, [],
          (pushAll l hs).closed⟩) := by
    have e : pushAll l hs = ⟨(pushAll l hs).Name, (pushAll l hs).level, hs.reverse,
        (pushAll l hs).closed⟩ := by
      rw [← hstack]
    rw [e]
    exact popTimes_reverse hs _ _ _
  refine ⟨by rw [hrun], by rw [hrun], ?_⟩
  intro l2 hne h
  have e : l2.PushHandler h
      = ⟨l2.Name, l2.level, (h :: l2.handlers.dropLast) ++ [l2.handlers.getLast hne],
          l2.closed⟩ := by
    have e2 : [h] ++ l2.handlers
        = (h :: l2.handlers.dropLast) ++ [l2.handlers.getLast hne] := by
      simp only [List.cons_append, List.nil_append, List.dropLast_append_getLast]
    unfold Logger.PushHandler
    rw [e2]
  rw [e, popHandler_snoc]
  exact ⟨rfl, rfl⟩

/-- Witness for C18: pushing A, B and C on an empty stack and popping three times
returns A, B and C in this order. -/
theorem push_pop_fifo_witness :
    (popTimes 3 (pushAll (NewLogger "svc")
      [plainHandler "A" DEBUG, plainHandler "B" INFO, plainHandler "C" ERROR])).1
      = [Except.ok (plainHandler "A" DEBUG), Except.ok (plainHandler "B" INFO),
         Except.ok (plainHandler "C" ERROR)] :=
  (push_pop_fifo (NewLogger "svc")
    [plainHandler "A" DEBUG, plainHandler "B" INFO, plainHandler "C" ERROR] rfl).1

/-! ## Dispatch and the state of the logger -/

theorem log_congr (l1 l2 : Logger) (hn : l1.Name = l2.Name) (hh : l1.handlers = l2.handlers)
    (sequenceNo now : Nat) (lvl : Level) (format : Option Text) (args : List Arg) :
    l1.log sequenceNo now lvl format args = l2.log sequenceNo now lvl format args := by
  unfold Logger.log
  rw [hn, hh]

theorem close_keeps (l : Logger) : l.Close.1.Name = l.Name ∧ l.Close.1.handlers = l.handlers := by
  unfold Logger.Close
  split <;> exact ⟨rfl, rfl⟩

/-- Which handlers the loop calls, in which order, and what the records passed
hold apart from id, time and cached message, depends on the record only through
its module, level, level name, arguments and template. -/
theorem dispatch_contents (lvl : Level) (hs : List Handler) :
    ∀ (k : Nat) (r1 r2 : Record), r1.Module = r2.Module → r1.Level = r2.Level →
      r1.LevelName = r2.LevelName → r1.Args = r2.Args → r1.fmt = r2.fmt →
      (dispatch lvl k hs r1).map HandleCall.contents
        = (dispatch lvl k hs r2).map HandleCall.contents := by
  induction hs with
  | nil => intro k r1 r2 _ _ _ _ _; rfl
  | cons h rest ih =>
    intro k r1 r2 e1 e2 e3 e4 e5
    unfold dispatch
    cases hfmt : h.GetFormatter with
    | none =>
      simp only []
      split
      · rw [List.map_cons, List.map_cons, ih (k + 1) r1 r2 e1 e2 e3 e4 e5]
        simp only [HandleCall.contents, e1, e2, e3, e4, e5]
      · exact ih (k + 1) r1 r2 e1 e2 e3 e4 e5
    | some f =>
      simp only []
      split
      · rw [List.map_cons, List.map_cons,
          ih (k + 1) { r1 with message := f.format r1 } { r2 with message := f.format r2 }
            e1 e2 e3 e4 e5]
        simp only [HandleCall.contents, e1, e2, e3, e4, e5]
      · exact ih (k + 1) r1 r2 e1 e2 e3 e4 e5

/-- Claim C20.  A call of `log` leaves the logger as it was: handler stack, name
and closed flag are unchanged.  The call does not look at the closed flag: on a
logger that has been closed it gives the same result, call for call and record
for record, as on the logger before `Close` or with any other value of the
flag; and made at another value of the counter and of the clock it invokes the
same handlers in the same order with records that hold the same module, level,
level name, arguments and template. -/
theorem log_ignores_closed (w : World) (now : Nat) (lvl : Level) (format : Option Text)
    (args : List Arg) :
    (w.log now lvl format args).logger = w.logger ∧
    (w.log now lvl format args).logger.handlers = w.logger.handlers ∧
    (w.log now lvl format args).logger.Name = w.logger.Name ∧
    (w.log now lvl format args).logger.closed = w.logger.closed ∧
    w.logger.Close.1.log w.sequenceNo now lvl format args
      = w.logger.log w.sequenceNo now lvl format args ∧
    (∀ b : Bool, ({ w.logger with closed := b } : Logger).log w.sequenceNo now lvl format args
      = w.logger.log w.sequenceNo now lvl format args) ∧
    (∀ sequenceNo2 now2 : Nat,
      (w.logger.Close.1.log sequenceNo2 now2 lvl format args).calls.map HandleCall.contents
        = (w.logger.log w.sequenceNo now lvl format args).calls.map HandleCall.contents) := by
  refine ⟨rfl, rfl, rfl, rfl, ?_, ?_, ?_⟩
  · exact log_congr _ _ (close_keeps w.logger).1 (close_keeps w.logger).2 _ _ _ _ _
  · intro b
    exact log_congr _ _ rfl rfl _ _ _ _ _
  · intro sequenceNo2 now2
    unfold Logger.log
    simp only [(close_keeps w.logger).1, (close_keeps w.logger).2]
    exact dispatch_contents lvl w.logger.handlers 0 _ _ rfl rfl rfl rfl rfl

/-! ## Panic -/

/-- Claim C16, the code at the failing input.  `Panic("a", "b")` dispatches one
CRITICAL record, which renders as "a b", and panics with the payload "ab".  For
`Panicf` the payload is the rendered message of the record built by the call. -/
theorem panic_payload :
    (((NewLogger "svc").PushHandler (plainHandler "H" DEBUG)).Panic 0 0
        [Arg.str "a", Arg.str "b"]).1.calls.map
        (fun c => (c.handler, c.record.Level, c.record.Message.1)) = [("H", CRITICAL, "a b")] ∧
    (((NewLogger "svc").PushHandler (plainHandler "H" DEBUG)).Panic 0 0
        [Arg.str "a", Arg.str "b"]).1.record.Message.1 = "a b" ∧
    (((NewLogger "svc").PushHandler (plainHandler "H" DEBUG)).Panic 0 0
        [Arg.str "a", Arg.str "b"]).2 = Abort.panic "ab" ∧
    (∀ (l : Logger) (sequenceNo now : Nat) (format : Text) (args : List Arg),
      (l.Panicf sequenceNo now format args).1.record.Level = CRITICAL ∧
      (l.Panicf sequenceNo now format args).2
        = Abort.panic (l.Panicf sequenceNo now format args).1.record.Message.1) := by
  refine ⟨by decide, by decide, by decide, ?_⟩
  intro l sequenceNo now format args
  refine ⟨rfl, ?_⟩
  have h := message_formatted (l.Panicf sequenceNo now format args).1.record format rfl rfl
  rw [h]
  rfl

/-! ## The console handler -/

/-- Claim C19, the code at the failing input.  For the record of
`Info("use %s for strings")` the level text followed by the message and a newline
is "[INFO]use %s for strings" and a newline, and `Handle` writes
"[INFO]use %!s(MISSING) for strings" and a newline; for the message "100%%" it
writes "[INFO]100%" and a newline. -/
theorem console_percent_reinterpreted :
    (ConsoleHandler.getLevelColor ⟨INFO, true⟩ INFO
      ++ (Record.Message ⟨1, 0, "svc", INFO, "INFO", [Arg.str "use %s for strings"],
            none, none⟩).1 ++ "\n") = "[INFO]use %s for strings\n" ∧
    ConsoleHandler.Handle ⟨INFO, true⟩
        ⟨1, 0, "svc", INFO, "INFO", [Arg.str "use %s for strings"], none, none⟩
      = "[INFO]use %!s(MISSING) for strings\n" ∧
    ConsoleHandler.Handle ⟨INFO, true⟩
        ⟨1, 0, "svc", INFO, "INFO", [Arg.str "100%%"], none, none⟩
      = "[INFO]100%\n" := by
  decide

theorem doPrintf_plain (cs : List Char) :
    ∀ buf : Text, (∀ c ∈ cs, c ≠ '%') → doPrintf cs [] buf = buf ++ String.mk cs := by
  induction cs with
  | nil =>
    intro buf _
    simp only [doPrintf, extraArgs]
  | cons c rest ih =>
    intro buf hc
    have h1 : c ≠ '%' := hc c (List.mem_cons_self c rest)
    have h2 : ∀ d ∈ rest, d ≠ '%' := fun d hd => hc d (List.mem_cons_of_mem c hd)
    have step : doPrintf (c :: rest) [] buf = doPrintf rest [] (buf.push c) := by
      rw [doPrintf.eq_def]
      simp only [h1, if_false]
    rw [step, ih (buf.push c) h2]
    cases buf
    apply String.ext
    simp [String.push]

theorem sprintf_plain (t : Text) (ht : ∀ c ∈ t.data, c ≠ '%') : Sprintf t [] = t := by
  unfold Sprintf
  rw [doPrintf_plain t.data "" ht]
  cases t
  rfl

theorem sprintf_bracket (name : Text) : Sprintf "[%s]" [Arg.str name] = "[" ++ name ++ "]" := by
  have e : ("[%s]" : String).data = ['[', '%', 's', ']'] := rfl
  unfold Sprintf
  rw [e]
  have n1 : ¬ ('[' = '%') := by decide
  have n2 : ¬ ('s' = '%') := by decide
  have n3 : ¬ (']' = '%') := by decide
  have hb : ('s' == 'v' || 's' == 's') = true := by decide
  simp only [doPrintf, n1, n2, n3, if_false, if_true, printArg, Arg.text, extraArgs, hb]
  cases name
  apply String.ext
  simp only [String.data_append, String.data_push, List.append_nil]
  rfl

theorem level_string_unknown (l : Level) (h : 5 < l) : Level.String l = "UNKNOWN" := by
  unfold Level.String
  rw [dif_pos (Or.inr h)]

theorem getLevelColor_plain (h : ConsoleHandler) (lvl : Level) (hd : h.disableColor = true) :
    h.getLevelColor lvl = "[" ++ Level.String lvl ++ "]" := by
  unfold ConsoleHandler.getLevelColor
  simp only [hd, Bool.not_true, Bool.false_eq_true, if_false, if_true, sprintf_bracket]

theorem getLevelColor_unknown (h : ConsoleHandler) (lvl : Level) (h5 : 5 < lvl) :
    h.getLevelColor lvl = "[UNKNOWN]" := by
  have a1 : ¬ (lvl = DEBUG ∨ lvl = INFO ∨ lvl = NOTICE) := by
    rintro (e | e | e) <;> rw [e] at h5 <;> exact absurd h5 (by decide)
  have a2 : ¬ (lvl = WARNING) := by
    intro e; rw [e] at h5; exact absurd h5 (by decide)
  have a3 : ¬ (lvl = ERROR ∨ lvl = CRITICAL) := by
    rintro (e | e) <;> rw [e] at h5 <;> exact absurd h5 (by decide)
  unfold ConsoleHandler.getLevelColor
  simp only [a1, a2, a3, if_false, ite_self, if_true, sprintf_bracket, level_string_unknown lvl h5]
  rfl


theorem getLevelColor_no_percent (h : ConsoleHandler) (lvl : Nat) :
    ∀ c ∈ (h.getLevelColor lvl).data, c ≠ '%' := by
  by_cases h5 : 5 < lvl
  · rw [getLevelColor_unknown h lvl h5]; decide
  · have hcases : lvl = 0 ∨ lvl = 1 ∨ lvl = 2 ∨ lvl = 3 ∨ lvl = 4 ∨ lvl = 5 := by omega
    have hfree : h.getLevelColor lvl
        = ConsoleHandler.getLevelColor ⟨0, h.disableColor⟩ lvl := rfl
    rw [hfree]
    cases h.disableColor <;>
      (rcases hcases with e | e | e | e | e | e <;> subst e <;> decide)

/-- Claim C15, counterexample.  With color disabled, a console handler at INFO
threshold attached to the logger "svc" writes, for `Errorf("boom %s", "now")`,
the line "[ERROR]boom now": there is no space after the closing bracket.  With
color enabled, a record whose level is 9, none of the six, is written as
"[UNKNOWN]x": the level name is not wrapped in color codes, and the line holds
no escape character. -/
theorem console_line_counterexample :
    consoleOutput ⟨INFO, true⟩
        (((NewLogger "svc").PushHandler (ConsoleHandler.toHandler ⟨INFO, true⟩)).Errorf 0 0
          "boom %s" [Arg.str "now"]) = ["[ERROR]boom now\n"] ∧
    consoleOutput ⟨INFO, true⟩
        (((NewLogger "svc").PushHandler (ConsoleHandler.toHandler ⟨INFO, true⟩)).Errorf 0 0
          "boom %s" [Arg.str "now"]) ≠ ["[ERROR] boom now\n"] ∧
    ConsoleHandler.Handle ⟨INFO, false⟩
        ⟨1, 0, "svc", 9, "UNKNOWN", [Arg.str "x"], none, none⟩ = "[UNKNOWN]x\n" ∧
    Char.ofNat 27 ∉ (ConsoleHandler.Handle ⟨INFO, false⟩
        ⟨1, 0, "svc", 9, "UNKNOWN", [Arg.str "x"], none, none⟩).data := by
  decide

/-- Claim C15, as amended.  For a record whose rendered message holds no percent
sign, `ConsoleHandler.Handle` writes the level text, then the message right after
the closing bracket, then a newline.  The level text is "[" + level name + "]"
when color is disabled; when color is enabled the level name is wrapped in the
color of the level and the reset code if the level is one of the six, and the
level text is "[UNKNOWN]", without color, for every other level.  With color
disabled, a console handler at INFO threshold attached to the logger "svc"
writes nothing for `Debugf("x=%d", 1)` and the line "[ERROR]boom now" for
`Errorf("boom %s", "now")`. -/
theorem console_line_format (h : ConsoleHandler) (r : Record)
    (hmsg : ∀ c ∈ r.Message.1.data, c ≠ '%') :
    h.Handle r = h.getLevelColor r.Level ++ r.Message.1 ++ "\n" ∧
    (h.disableColor = true → h.getLevelColor r.Level = "[" ++ Level.String r.Level ++ "]") ∧
    (h.disableColor = false → (r.Level = DEBUG ∨ r.Level = INFO ∨ r.Level = NOTICE) →
      h.getLevelColor r.Level = "[" ++ blue ++ Level.String r.Level ++ reset ++ "]") ∧
    (h.disableColor = false → r.Level = WARNING →
      h.getLevelColor r.Level = "[" ++ yellow ++ Level.String r.Level ++ reset ++ "]") ∧
    (h.disableColor = false → (r.Level = ERROR ∨ r.Level = CRITICAL) →
      h.getLevelColor r.Level = "[" ++ red ++ Level.String r.Level ++ reset ++ "]") ∧
    (h.disableColor = false → 5 < r.Level →
      h.getLevelColor r.Level = "[" ++ Level.String r.Level ++ "]" ∧
      h.getLevelColor r.Level = "[UNKNOWN]") ∧
    consoleOutput ⟨INFO, true⟩
        (((NewLogger "svc").PushHandler (ConsoleHandler.toHandler ⟨INFO, true⟩)).Debugf 0 0
          "x=%d" [Arg.int 1]) = [] ∧
    consoleOutput ⟨INFO, true⟩
        (((NewLogger "svc").PushHandler (ConsoleHandler.toHandler ⟨INFO, true⟩)).Errorf 1 0
          "boom %s" [Arg.str "now"]) = ["[ERROR]boom now\n"] := by
  have hfree : ∀ lvl : Level, h.getLevelColor lvl
      = ConsoleHandler.getLevelColor ⟨0, h.disableColor⟩ lvl := fun _ => rfl
  refine ⟨?_, getLevelColor_plain h r.Level, ?_, ?_, ?_, ?_, by decide, by decide⟩
  · unfold ConsoleHandler.Handle
    apply sprintf_plain
    intro c hc
    simp only [String.data_append, List.mem_append] at hc
    rcases hc with (hc | hc) | hc
    · exact getLevelColor_no_percent h r.Level c hc
    · exact hmsg c hc
    · have hn : c = '\n' := by simpa using hc
      rw [hn]; decide
  · intro hd hl
    rw [hfree, hd]
    rcases hl with e | e | e <;> rw [e] <;> decide
  · intro hd e
    rw [hfree, hd, e]
    decide
  · intro hd hl
    rw [hfree, hd]
    rcases hl with e | e <;> rw [e] <;> decide
  · intro _ h5
    refine ⟨?_, getLevelColor_unknown h r.Level h5⟩
    rw [getLevelColor_unknown h r.Level h5, level_string_unknown r.Level h5]
    rfl

/-- Witness for C15 as amended: the record of `Errorf("boom %s", "now")` with color
disabled. -/
theorem console_line_format_witness :
    ConsoleHandler.Handle ⟨INFO, true⟩
        ⟨1, 0, "svc", ERROR, "ERROR", [Arg.str "now"], none, some "boom %s"⟩
      = "[ERROR]boom now\n" :=
  (console_line_format ⟨INFO, true⟩
    ⟨1, 0, "svc", ERROR, "ERROR", [Arg.str "now"], none, some "boom %s"⟩ (by decide)).1

/-! ## The render shared by the handlers of one dispatch -/

theorem dispatch_append (lvl : Level) (xs ys : List Handler) :
    ∀ (k : Nat) (r : Record),
      dispatch lvl k (xs ++ ys) r
        = dispatch lvl k xs r ++ dispatch lvl (k + xs.length) ys (recordAfter lvl xs r) := by
  induction xs with
  | nil => intro k r; rfl
  | cons h rest ih =>
    intro k r
    have e : k + (h :: rest).length = k + 1 + rest.length := by
      simp only [List.length_cons]; omega
    rw [e, List.cons_append]
    by_cases hacc : h.GetLevel ≥ lvl
    · cases hfmt : h.GetFormatter with
      | none => simp only [dispatch, recordAfter, hacc, hfmt, if_true, ih, List.cons_append]
      | some f => simp only [dispatch, recordAfter, hacc, hfmt, if_true, ih, List.cons_append]
    · simp only [dispatch, recordAfter, hacc, if_false, ih]

theorem recordAfter_plain (lvl : Level) (xs : List Handler) :
    ∀ r : Record, (∀ h ∈ xs, h.GetLevel ≥ lvl → h.GetFormatter = none) →
      recordAfter lvl xs r = r := by
  induction xs with
  | nil => intro r _; rfl
  | cons h rest ih =>
    intro r hx
    have hrest : ∀ g ∈ rest, g.GetLevel ≥ lvl → g.GetFormatter = none :=
      fun g hg => hx g (List.mem_cons_of_mem h hg)
    unfold recordAfter
    split
    · rename_i hacc
      rw [hx h (List.mem_cons_self h rest) hacc]
      exact ih r hrest
    · exact ih r hrest

theorem recordAfter_fields (lvl : Level) (xs : List Handler) :
    ∀ r : Record, ∃ m : Bytes, recordAfter lvl xs r = { r with message := m } := by
  induction xs with
  | nil => intro r; exact ⟨r.message, rfl⟩
  | cons h rest ih =>
    intro r
    unfold recordAfter
    cases hfmt : h.GetFormatter with
    | none =>
      simp only []
      split
      · exact ih r
      · exact ih r
    | some f =>
      simp only []
      split
      · obtain ⟨m, hm⟩ := ih { r with message := f.format r }
        exact ⟨m, hm⟩
      · exact ih r

theorem dispatch_records_shift (lvl : Level) (hs : List Handler) :
    ∀ (k1 k2 : Nat) (r : Record),
      (dispatch lvl k1 hs r).map (fun c => c.record)
        = (dispatch lvl k2 hs r).map (fun c => c.record) := by
  induction hs with
  | nil => intro k1 k2 r; rfl
  | cons h rest ih =>
    intro k1 k2 r
    unfold dispatch
    split
    · rw [List.map_cons, List.map_cons, ih (k1 + 1) (k2 + 1)]
    · exact ih (k1 + 1) (k2 + 1) r

/-- Claim C17.  In one dispatch, when an accepted formattable handler F, whose
formatter returns a text for every record, precedes an accepted plain handler P
with no accepted formattable handler between them, P receives the very record F
receives, whose cached message is the output of F's formatter, and that record
renders (`Message()`) as this output, not by the default rendering of the
arguments.  An accepted plain handler that no accepted formattable handler
precedes receives the record as built, which renders by default.  A formattable
handler that the severity check rejects changes no record: the handlers receive
the records they would receive without it. -/
theorem render_shared_in_dispatch (l : Logger) (sequenceNo now : Nat) (lvl : Level)
    (format : Option Text) (args : List Arg) :
    (∀ (pre mid post : List Handler) (F P : Handler) (fm : Formatter),
      l.handlers = pre ++ F :: (mid ++ P :: post) →
      F.GetLevel ≥ lvl → F.GetFormatter = some fm →
      (∀ rec : Record, fm.format rec ≠ none) →
      P.GetLevel ≥ lvl → P.GetFormatter = none →
      (∀ h ∈ mid, h.GetLevel ≥ lvl → h.GetFormatter = none) →
      ∃ (m : Bytes) (rec : Record),
        rec = { (l.log sequenceNo now lvl format args).record with
          message := fm.format
            { (l.log sequenceNo now lvl format args).record with message := m } } ∧
        ⟨pre.length, F.name, rec⟩ ∈ (l.log sequenceNo now lvl format args).calls ∧
        ⟨pre.length + 1 + mid.length, P.name, rec⟩
          ∈ (l.log sequenceNo now lvl format args).calls ∧
        rec.Message.1 = Bytes.toText (fm.format
          { (l.log sequenceNo now lvl format args).record with message := m })) ∧
    (∀ (pre post : List Handler) (P : Handler),
      l.handlers = pre ++ P :: post →
      P.GetLevel ≥ lvl → P.GetFormatter = none →
      (∀ h ∈ pre, h.GetLevel ≥ lvl → h.GetFormatter = none) →
      ⟨pre.length, P.name, (l.log sequenceNo now lvl format args).record⟩
        ∈ (l.log sequenceNo now lvl format args).calls) ∧
    (∀ (pre post : List Handler) (R : Handler),
      l.handlers = pre ++ R :: post → ¬ R.GetLevel ≥ lvl →
      (l.log sequenceNo now lvl format args).calls.map (fun c => c.record)
        = ((l.SetHandlers (pre ++ post)).log sequenceNo now lvl format args).calls.map
            (fun c => c.record)) := by
  refine ⟨?_, ?_, ?_⟩
  · intro pre mid post F P fm hl hF hfm htext hP hPf hmid
    obtain ⟨m, hm⟩ := recordAfter_fields lvl pre (l.log sequenceNo now lvl format args).record
    refine ⟨m, _, rfl, ?_, ?_, ?_⟩
    · simp only [Logger.log, hl, dispatch_append, List.mem_append]
      right
      simp only [Logger.log] at hm
      simp only [dispatch, hF, hfm, if_true, hm, Nat.zero_add, List.mem_cons, true_or]
    · simp only [Logger.log, hl, dispatch_append, List.mem_append]
      right
      simp only [Logger.log] at hm
      simp only [dispatch, recordAfter, hF, hfm, if_true, hm, Nat.zero_add, List.mem_cons]
      right
      rw [dispatch_append, List.mem_append]
      right
      rw [recordAfter_plain lvl mid _ hmid]
      simp only [dispatch, hP, hPf, if_true, List.mem_cons, true_or]
    · cases hout : fm.format
          { (l.log sequenceNo now lvl format args).record with message := m } with
      | none => exact absurd hout (htext _)
      | some t =>
        rw [message_cached_with]
        rfl
  · intro pre post P hl hP hPf hpre
    simp only [Logger.log, hl, dispatch_append, List.mem_append]
    right
    rw [recordAfter_plain lvl pre _ hpre]
    simp only [dispatch, hP, hPf, if_true, Nat.zero_add, List.mem_cons, true_or]
  · intro pre post R hl hR
    simp only [Logger.log, Logger.SetHandlers, hl, dispatch_append, List.map_append]
    congr 1
    simp only [dispatch, hR, if_false]
    exact dispatch_records_shift lvl post _ _ _

/-- Witness for C17: the formattable handler F, whose formatter returns
"formatted", precedes the plain handler P, and a rejected formattable handler R
stands between them; for `Info("hi")` F and P receive the same record, which
renders as "formatted". -/
theorem render_shared_in_dispatch_witness :
    ∃ rec : Record,
      (⟨0, "F", rec⟩ : HandleCall) ∈ (((NewLogger "svc").SetHandlers
        [formattingHandler "F" DEBUG (constFormatter (some "formatted")),
         formattingHandler "R" ERROR (constFormatter (some "rejected")),
         plainHandler "P" DEBUG]).log 0 0 INFO none [Arg.str "hi"]).calls ∧
      (⟨2, "P", rec⟩ : HandleCall) ∈ (((NewLogger "svc").SetHandlers
        [formattingHandler "F" DEBUG (constFormatter (some "formatted")),
         formattingHandler "R" ERROR (constFormatter (some "rejected")),
         plainHandler "P" DEBUG]).log 0 0 INFO none [Arg.str "hi"]).calls ∧
      rec.Message.1 = "formatted" := by
  obtain ⟨m, rec, _, hF, hP, hmsg⟩ :=
    (render_shared_in_dispatch ((NewLogger "svc").SetHandlers
        [formattingHandler "F" DEBUG (constFormatter (some "formatted")),
         formattingHandler "R" ERROR (constFormatter (some "rejected")),
         plainHandler "P" DEBUG]) 0 0 INFO none [Arg.str "hi"]).1
      [] [formattingHandler "R" ERROR (constFormatter (some "rejected"))] []
      (formattingHandler "F" DEBUG (constFormatter (some "formatted")))
      (plainHandler "P" DEBUG) (constFormatter (some "formatted"))
      rfl (by decide) rfl (fun _ => Option.some_ne_none _) (by decide) rfl
      (by
        intro h hh hacc
        rw [List.mem_singleton] at hh
        subst hh
        exact absurd hacc (by decide))
  exact ⟨rec, hF, hP, hmsg⟩

end Veuvelog
